import Mathlib

/-!
Bulk assembly and dispatch (`src/async.cpp`).

A shallow embedding of the per-context command assembler
(`AsyncBulkCommandManager`), of the dispatcher queues (`ThreadManager`) and of
the file name built by `FileOutputHandler::handle`.

Conventions of the embedding:

* a `std::string` is a `List Char` (`Str`);
* `thread_manager->submitBlock(block)` is recorded by appending the block to
  the field `submitted` of the context state, in call order;
* `firstCommandTime` is a wall-clock reading; it is not part of the context
  state here and enters only as an explicit argument of the file name;
* the counters (`block_counter`, `file_counter`) are 32-bit `int`s: an integer
  kept in the range of `int` by `wrapInt32` after each increment.
-/

namespace Async

/-- A byte string (`std::string`). -/
abbrev Str := List Char

/-! ## `CommandBlock` -/

/-- The value of an integer stored in a 32-bit two's complement `int`. -/
def wrapInt32 (x : Int) : Int :=
  (x + 2147483648) % 4294967296 - 2147483648

/-- The block handed to the dispatcher (`struct CommandBlock`), without its time stamp. -/
structure CommandBlock where
  commands : List Str
  context_id : Str
  block_number : Int
deriving DecidableEq, Repr

/-! ## String helpers used by `processCommand` -/

/-- Membership in the character set `" \t\r\n"`. -/
def isWs (c : Char) : Bool :=
  c == ' ' || c == '\t' || c == '\r' || c == '\n'

/-- The call `s.find_first_not_of(" \t\r\n")`: index of the first character outside the set,
`none` standing for `npos`. -/
def find_first_not_of : Str → Option Nat
  | [] => none
  | c :: cs => if isWs c then (find_first_not_of cs).map (· + 1) else some 0

/-- The call `s.find_last_not_of(" \t\r\n")`: index of the last character outside the set,
`none` standing for `npos`. -/
def find_last_not_of : Str → Option Nat
  | [] => none
  | c :: cs =>
    match find_last_not_of cs with
    | some i => some (i + 1)
    | none => if isWs c then none else some 0

/-- The call `s.substr(pos, n)`. -/
def substr (s : Str) (pos n : Nat) : Str :=
  (s.drop pos).take n

/-! ## `AsyncBulkCommandManager` -/

/-- State of one context (`class AsyncBulkCommandManager`). The stack `dynamicBlockSizes` has
its top at the head of the list. -/
structure AsyncBulkCommandManager where
  blockSize : Nat
  currentCommands : List Str
  dynamicBlockSizes : List Nat
  inDynamicBlock : Bool
  buffer : Str
  context_id : Str
  block_counter : Int
  submitted : List CommandBlock
deriving DecidableEq, Repr

/-- The constructor: `blockSize(size)`, everything else empty. -/
def AsyncBulkCommandManager.create (size : Nat) (id : Str) : AsyncBulkCommandManager :=
  { blockSize := size, currentCommands := [], dynamicBlockSizes := [],
    inDynamicBlock := false, buffer := [], context_id := id,
    block_counter := 0, submitted := [] }

/-- The method `processBlock`: nothing on empty `currentCommands`, otherwise the commands are
moved into a block numbered with the old value of `block_counter` and submitted;
`block_counter.fetch_add(1)` on the `std::atomic<int>` wraps. -/
def processBlock (st : AsyncBulkCommandManager) : AsyncBulkCommandManager :=
  if st.currentCommands.isEmpty then st
  else
    { st with
      currentCommands := []
      block_counter := wrapInt32 (st.block_counter + 1)
      submitted := st.submitted ++
        [{ commands := st.currentCommands, context_id := st.context_id,
           block_number := st.block_counter }] }

/-- The part of `processCommand` that follows the trimming: the three branches on the trimmed,
non-empty `command` (`"{"`, `"}"`, anything else). -/
def processTrimmed (st : AsyncBulkCommandManager) (command : Str) : AsyncBulkCommandManager :=
  if command = ['\x7b'] then
    if !st.inDynamicBlock then
      let st := processBlock st
      { st with
        dynamicBlockSizes := st.blockSize :: st.dynamicBlockSizes
        blockSize := 0
        inDynamicBlock := true }
    else
      { st with
        dynamicBlockSizes := st.blockSize :: st.dynamicBlockSizes
        blockSize := 0 }
  else if command = ['\x7d'] then
    if st.inDynamicBlock then
      let st := processBlock st
      let st :=
        match st.dynamicBlockSizes with
        | top :: rest => { st with blockSize := top, dynamicBlockSizes := rest }
        | [] => st
      { st with inDynamicBlock := !st.dynamicBlockSizes.isEmpty }
    else st
  else
    let st := { st with currentCommands := st.currentCommands ++ [command] }
    if !st.inDynamicBlock && decide (st.blockSize > 0)
        && decide (st.currentCommands.length ≥ st.blockSize) then
      processBlock st
    else st

/-- The method `processCommand`: the command is cut down to the range between its first and
its last character outside `" \t\r\n"` and then dispatched; a command with no such character
is dropped. When `find_first_not_of` succeeds so does `find_last_not_of`, hence the default
of `getD` is never used. -/
def processCommand (st : AsyncBulkCommandManager) (command : Str) : AsyncBulkCommandManager :=
  match find_first_not_of command with
  | none => st
  | some start =>
    let last := (find_last_not_of command).getD 0
    let command := substr command start (last - start + 1)
    if command.isEmpty then st
    else processTrimmed st command

/-- The `while (true)` loop of `addData`: `cur` holds the characters of the buffer between
`start` and the scanning position; at each `'\n'` the line is processed and `start` moves
past it. The result is the state together with the characters after the last newline. -/
def scanLines (st : AsyncBulkCommandManager) (cur : Str) :
    Str → AsyncBulkCommandManager × Str
  | [] => (st, cur)
  | c :: cs =>
    if c = '\n' then scanLines (processCommand st cur) [] cs
    else scanLines st (cur ++ [c]) cs

/-- The method `addData`. -/
def addData (st : AsyncBulkCommandManager) (data : Str) : AsyncBulkCommandManager :=
  if data.isEmpty then st
  else
    let st := { st with buffer := st.buffer ++ data }
    let r := scanLines st [] st.buffer
    { r.1 with buffer := r.2 }

/-- The method `flush`. -/
def flush (st : AsyncBulkCommandManager) : AsyncBulkCommandManager :=
  let st :=
    if !st.buffer.isEmpty then
      { processCommand st st.buffer with buffer := [] }
    else st
  if !st.inDynamicBlock && !st.currentCommands.isEmpty then processBlock st else st

/-- The destructor `~AsyncBulkCommandManager`. -/
def destroy (st : AsyncBulkCommandManager) : AsyncBulkCommandManager :=
  if !st.inDynamicBlock then flush st else st

/-- What `ContextManager::destroyContext` does to a registered context: `flush`, then
`contexts.erase(it)`, which runs the destructor. -/
def destroyContext (st : AsyncBulkCommandManager) : AsyncBulkCommandManager :=
  destroy (flush st)

/-- The command lists of the submitted blocks, in submission order. -/
def bulks (st : AsyncBulkCommandManager) : List (List Str) :=
  st.submitted.map (·.commands)

/-- The public methods of a context, as calls. -/
inductive Call where
  | addData (data : Str)
  | processCommand (command : Str)
  | flush
deriving DecidableEq, Repr

/-- One call on a context. -/
def Call.run (st : AsyncBulkCommandManager) : Call → AsyncBulkCommandManager
  | .addData data => Async.addData st data
  | .processCommand command => Async.processCommand st command
  | .flush => Async.flush st

/-- A sequence of calls on a context, first call first. -/
def runCalls (st : AsyncBulkCommandManager) (calls : List Call) : AsyncBulkCommandManager :=
  calls.foldl Call.run st

/-- The first statement of `flush`: the carried-over `buffer`, when non-empty, goes through
`processCommand` and is cleared. -/
def drainBuffer (st : AsyncBulkCommandManager) : AsyncBulkCommandManager :=
  if !st.buffer.isEmpty then { processCommand st st.buffer with buffer := [] } else st

/-! ## Reference notions for the statements -/

/-- The one-character command `"{"`. -/
def lbrace : Str := ['\x7b']

/-- The one-character command `"}"`. -/
def rbrace : Str := ['\x7d']

/-- Removal of trailing white space. -/
def trimRight : Str → Str
  | [] => []
  | c :: cs =>
    match trimRight cs with
    | [] => if isWs c then [] else [c]
    | r :: rs => c :: r :: rs

/-- A token trimmed of leading and trailing white space (space, tab, CR, LF). -/
def trim (s : Str) : Str :=
  trimRight (s.dropWhile isWs)

/-- The input cut at its newlines: the lines that are terminated by a newline (newline
stripped), and the trailing characters after the last newline. -/
def splitNL : Str → List Str × Str
  | [] => ([], [])
  | c :: cs =>
    let r := splitNL cs
    if c = '\n' then ([] :: r.1, r.2)
    else
      match r.1 with
      | [] => ([], c :: r.2)
      | l :: ls => ((c :: l) :: ls, r.2)

/-- The trimmed non-empty tokens of an input, in arrival order: every newline-terminated line
and the unterminated tail, trimmed, the empty ones dropped. -/
def tokens (s : Str) : List Str :=
  (((splitNL s).1 ++ [(splitNL s).2]).map trim).filter (fun t => !t.isEmpty)

/-- Cutting a list into consecutive batches of `N` elements, the last one possibly shorter;
`fuel` bounds the number of batches. -/
def batchesAux {α : Type} (N : Nat) : Nat → List α → List (List α)
  | 0, _ => []
  | fuel + 1, l => if l.isEmpty then [] else l.take N :: batchesAux N fuel (l.drop N)

/-- The size-`N` batches of a list. -/
def batches {α : Type} (N : Nat) (l : List α) : List (List α) :=
  batchesAux N l.length l

/-- A command as a bulk may carry it: non-empty, no white space at either end, not a block
marker. -/
def goodCommand (c : Str) : Prop :=
  c ≠ [] ∧ (∀ x, c.head? = some x → isWs x = false) ∧
    (∀ x, c.getLast? = some x → isWs x = false) ∧ c ≠ lbrace ∧ c ≠ rbrace

/-- The effect of `addData` in terms of the lines of `buffer ++ data`. -/
def feed (st : AsyncBulkCommandManager) (data : Str) : AsyncBulkCommandManager :=
  { (splitNL (st.buffer ++ data)).1.foldl processCommand st with
    buffer := (splitNL (st.buffer ++ data)).2 }

/-- The second statement of `flush`: outside a dynamic block the remaining commands are
emitted. -/
def flushPending (st : AsyncBulkCommandManager) : AsyncBulkCommandManager :=
  if !st.inDynamicBlock && !st.currentCommands.isEmpty then processBlock st else st

/-- The numbering invariant: the `k`-th submitted block carries `k` as a 32-bit `int`, and
the counter is the number of submitted blocks as a 32-bit `int`. -/
def Numbered (st : AsyncBulkCommandManager) : Prop :=
  st.submitted.map (·.block_number) =
      (List.range st.submitted.length).map (fun (k : Nat) => wrapInt32 (k : Int)) ∧
    st.block_counter = wrapInt32 st.submitted.length

/-- The content invariant: the pending commands are good commands, and every submitted block
is a non-empty list of good commands. -/
def WellFormed (st : AsyncBulkCommandManager) : Prop :=
  (∀ c ∈ st.currentCommands, goodCommand c) ∧
    ∀ b ∈ st.submitted, b.commands ≠ [] ∧ ∀ c ∈ b.commands, goodCommand c

/-- The sizes of a context connected with static size 0: `blockSize` and every suspended size
on the stack are 0. -/
def ZeroSized (st : AsyncBulkCommandManager) : Prop :=
  st.blockSize = 0 ∧ ∀ x ∈ st.dynamicBlockSizes, x = 0

/-! ## `FileOutputHandler` -/

/-- The stream insertion of a non-negative integer: its decimal digits. -/
def decimal (n : Nat) : Str :=
  Nat.toDigits 10 n

/-- The insertion `std::setfill('0') << std::setw(6) << n` of a non-negative integer. -/
def pad6 (n : Nat) : Str :=
  List.replicate (6 - (decimal n).length) '0' ++ decimal n

/-- The name built in `FileOutputHandler::handle`. The time stamp is given in microseconds
since the epoch: `timestamp_sec` is its quotient and `timestamp_us` its remainder by
`1000000`. -/
def fileName (firstCommandTime : Nat) (context_id : Str) (block_number thread_index file_num : Nat) :
    Str :=
  let timestamp_sec := firstCommandTime / 1000000
  let timestamp_us := firstCommandTime % 1000000
  "bulk".toList ++ decimal timestamp_sec ++ "_".toList
    ++ pad6 timestamp_us ++ "_".toList
    ++ context_id ++ "_".toList
    ++ decimal block_number ++ "_".toList
    ++ decimal thread_index ++ "_".toList
    ++ pad6 file_num
    ++ ".log".toList

/-- The value of a digit string read in base ten. -/
def decimalValue (s : Str) : Nat :=
  s.foldl (fun a c => a * 10 + (c.toNat - 48)) 0

/-- State of a file sink (`class FileOutputHandler`): its index, its counter, the blocks for
which it has created a file, and the blocks for which the creation failed (the
`"Failed to create file"` diagnostics), each with the `file_num` used in the file name. -/
structure FileOutputHandler where
  thread_index : Nat
  file_counter : Int
  written : List (Int × CommandBlock)
  failed : List (Int × CommandBlock)
deriving DecidableEq, Repr

/-- The method `FileOutputHandler::handle`. Whether `std::ofstream file(filename.str())`
opens is decided by the file system and given as `created`. `file_num` is
`file_counter.fetch_add(1) + 1`, taken in the range of `int`. -/
def FileOutputHandler.handle (h : FileOutputHandler) (block : CommandBlock) (created : Bool) :
    FileOutputHandler :=
  if block.commands.isEmpty then h
  else
    let file_num := wrapInt32 (h.file_counter + 1)
    let h := { h with file_counter := wrapInt32 (h.file_counter + 1) }
    if !created then { h with failed := h.failed ++ [(file_num, block)] }
    else { h with written := h.written ++ [(file_num, block)] }

/-- State of the console sink: the blocks it has printed. -/
structure ConsoleOutputHandler where
  printed : List CommandBlock
deriving DecidableEq, Repr

/-- The method `ConsoleOutputHandler::handle`. -/
def ConsoleOutputHandler.handle (h : ConsoleOutputHandler) (block : CommandBlock) :
    ConsoleOutputHandler :=
  if block.commands.isEmpty then h else { printed := h.printed ++ [block] }

/-! ## `ThreadManager` -/

/-- State of the dispatcher (`class ThreadManager`): the three sinks, the console queue, the
one file queue that both file threads read, and for each worker thread its local variable
`block` (a block popped from the queue and not yet handled). Queues have their front at the
head. The stop flags, which end a worker loop only when its queue is empty, are not part of
the state. -/
structure ThreadManager where
  console_handler : ConsoleOutputHandler
  file_handler1 : FileOutputHandler
  file_handler2 : FileOutputHandler
  console_queue : List CommandBlock
  file_queue : List CommandBlock
  console_block : Option CommandBlock
  file_block1 : Option CommandBlock
  file_block2 : Option CommandBlock
deriving DecidableEq, Repr

/-- The constructor of `ThreadManager`. -/
def ThreadManager.create : ThreadManager :=
  { console_handler := { printed := [] }
    file_handler1 := { thread_index := 1, file_counter := 0, written := [], failed := [] }
    file_handler2 := { thread_index := 2, file_counter := 0, written := [], failed := [] }
    console_queue := []
    file_queue := []
    console_block := none
    file_block1 := none
    file_block2 := none }

/-- The method `submitBlock`. -/
def submitBlock (tm : ThreadManager) (block : CommandBlock) : ThreadManager :=
  { tm with
    console_queue := tm.console_queue ++ [block]
    file_queue := tm.file_queue ++ [block] }

/-- The part of one iteration of `console_worker` that runs under `console_mutex`: at the
start of an iteration (local `block` empty) the front of a non-empty queue is moved into
`block`. With an empty queue the thread waits, which leaves the state as it is. -/
def console_worker_take (tm : ThreadManager) : ThreadManager :=
  match tm.console_block, tm.console_queue with
  | none, block :: rest => { tm with console_queue := rest, console_block := some block }
  | _, _ => tm

/-- The part of one iteration of `console_worker` that runs after the lock is released:
`if (block) console_handler->handle(*block)`, after which the iteration ends. -/
def console_worker_handle (tm : ThreadManager) : ThreadManager :=
  match tm.console_block with
  | some block =>
    { tm with console_handler := tm.console_handler.handle block, console_block := none }
  | none => tm

/-- The part of one iteration of `file_worker(handler)` that runs under `file_mutex`, for the
thread running `file_handler1` (`first = true`) or `file_handler2` (`first = false`). -/
def file_worker_take (first : Bool) (tm : ThreadManager) : ThreadManager :=
  if first then
    match tm.file_block1, tm.file_queue with
    | none, block :: rest => { tm with file_queue := rest, file_block1 := some block }
    | _, _ => tm
  else
    match tm.file_block2, tm.file_queue with
    | none, block :: rest => { tm with file_queue := rest, file_block2 := some block }
    | _, _ => tm

/-- The part of one iteration of `file_worker(handler)` that runs after the lock is
released: `if (block) handler->handle(*block)`; `created` tells whether the file could be
created. -/
def file_worker_handle (first : Bool) (created : Bool) (tm : ThreadManager) : ThreadManager :=
  if first then
    match tm.file_block1 with
    | some block =>
      { tm with file_handler1 := tm.file_handler1.handle block created, file_block1 := none }
    | none => tm
  else
    match tm.file_block2 with
    | some block =>
      { tm with file_handler2 := tm.file_handler2.handle block created, file_block2 := none }
    | none => tm

/-- What can happen next in the dispatcher: a producer submits a block, or one of the three
worker threads runs the locked or the unlocked part of an iteration. -/
inductive Event where
  | submit (block : CommandBlock)
  | console_take
  | console_handle
  | file_take (first : Bool)
  | file_handle (first : Bool) (created : Bool)
deriving DecidableEq, Repr

/-- One event. -/
def Event.run (tm : ThreadManager) : Event → ThreadManager
  | .submit block => submitBlock tm block
  | .console_take => console_worker_take tm
  | .console_handle => console_worker_handle tm
  | .file_take first => file_worker_take first tm
  | .file_handle first created => file_worker_handle first created tm

/-- An interleaving of submissions and worker steps, first event first. -/
def runEvents (tm : ThreadManager) (events : List Event) : ThreadManager :=
  events.foldl Event.run tm

/-- The blocks submitted in an interleaving, in order. -/
def submittedBlocks : List Event → List CommandBlock
  | [] => []
  | .submit block :: es => block :: submittedBlocks es
  | _ :: es => submittedBlocks es

/-- No file creation fails in the interleaving. -/
def allCreated : List Event → Bool
  | [] => true
  | .file_handle _ created :: es => created && allCreated es
  | _ :: es => allCreated es

/-- The blocks a file sink has handled: those written and those whose file creation
failed. -/
def FileOutputHandler.handled (h : FileOutputHandler) : List CommandBlock :=
  (h.written ++ h.failed).map Prod.snd

/-- The accounting invariant of the dispatcher with respect to the list `sub` of blocks
submitted so far: the console has printed a front part of `sub`, then comes the block its
thread holds, and its queue holds the rest; every block of `sub` is, counted with
multiplicity, in exactly one of: handled by the first file sink, handled by the second, held
by one of the two file threads, still in the file queue. -/
def Accounted (tm : ThreadManager) (sub : List CommandBlock) : Prop :=
  tm.console_handler.printed ++ tm.console_block.toList ++ tm.console_queue = sub ∧
    ∀ b, tm.file_handler1.handled.count b + tm.file_handler2.handled.count b
        + tm.file_block1.toList.count b + tm.file_block2.toList.count b
        + tm.file_queue.count b = sub.count b

/-! ## Trimming -/

theorem find_last_not_of_ws (c : Char) (cs : Str) (h : isWs c = true) :
    find_last_not_of (c :: cs) = (find_last_not_of cs).map (· + 1) := by
  simp only [find_last_not_of]
  cases find_last_not_of cs <;> simp [h]

theorem find_last_not_of_none {s : Str} (h : find_last_not_of s = none) : trimRight s = [] := by
  induction s with
  | nil => rfl
  | cons c cs ih =>
    simp only [find_last_not_of] at h
    cases hl : find_last_not_of cs with
    | some i => rw [hl] at h; simp at h
    | none =>
      rw [hl] at h
      by_cases hc : isWs c = true
      · simp [trimRight, ih hl, hc]
      · simp [hc] at h

theorem find_last_not_of_some {s : Str} {j : Nat} (h : find_last_not_of s = some j) :
    s.take (j + 1) = trimRight s ∧ trimRight s ≠ [] := by
  induction s generalizing j with
  | nil => simp [find_last_not_of] at h
  | cons c cs ih =>
    simp only [find_last_not_of] at h
    cases hl : find_last_not_of cs with
    | some i =>
      rw [hl] at h
      simp only [Option.some.injEq] at h
      subst h
      obtain ⟨h1, h2⟩ := ih hl
      cases hr : trimRight cs with
      | nil => exact absurd hr h2
      | cons r rs =>
        simp only [trimRight, hr, List.take_succ_cons, ne_eq, reduceCtorEq, not_false_eq_true,
          and_true, List.cons.injEq, true_and]
        rw [← hr, h1]
    | none =>
      rw [hl] at h
      by_cases hc : isWs c = true
      · simp [hc] at h
      · simp only [hc, Bool.false_eq_true, ↓reduceIte, Option.some.injEq] at h
        subst h
        simp [trimRight, find_last_not_of_none hl, hc]

/-- The range cut out by `processCommand`, as a function of the raw command. -/
theorem trim_eq_code (s : Str) :
    (match find_first_not_of s with
      | none => []
      | some start => substr s start ((find_last_not_of s).getD 0 - start + 1)) = trim s := by
  induction s with
  | nil => rfl
  | cons c cs ih =>
    by_cases hc : isWs c = true
    · rw [find_last_not_of_ws c cs hc]
      simp only [find_first_not_of, hc, ↓reduceIte, trim, List.dropWhile_cons]
      simp only [trim] at ih
      rw [← ih]
      cases hf : find_first_not_of cs with
      | none => simp
      | some i =>
        cases hl : find_last_not_of cs with
        | none => simp [substr]
        | some j =>
          simp only [Option.map_some', Option.getD_some, substr, List.drop_succ_cons]
          congr 1
          omega
    · simp only [find_first_not_of, hc, Bool.false_eq_true, ↓reduceIte, trim,
        List.dropWhile_cons, substr, List.drop_zero, Nat.sub_zero]
      cases hl : find_last_not_of (c :: cs) with
      | none =>
        simp only [find_last_not_of] at hl
        cases hl2 : find_last_not_of cs with
        | some i => rw [hl2] at hl; simp at hl
        | none => rw [hl2] at hl; simp [hc] at hl
      | some j =>
        simp only [Option.getD_some]
        exact (find_last_not_of_some hl).1

theorem find_first_not_of_none {s : Str} (h : find_first_not_of s = none) : trim s = [] := by
  have := trim_eq_code s
  rw [h] at this
  exact this.symm

theorem processCommand_eq (st : AsyncBulkCommandManager) (raw : Str) :
    processCommand st raw = if (trim raw).isEmpty then st else processTrimmed st (trim raw) := by
  unfold processCommand
  have h := trim_eq_code raw
  cases hf : find_first_not_of raw with
  | none => simp [find_first_not_of_none hf]
  | some i =>
    rw [hf] at h
    simp only at h
    simp only [h]

theorem trimRight_getLast (s : Str) (x : Char) (h : (trimRight s).getLast? = some x) :
    isWs x = false := by
  induction s with
  | nil => simp [trimRight] at h
  | cons c cs ih =>
    simp only [trimRight] at h
    cases hr : trimRight cs with
    | nil =>
      rw [hr] at h
      by_cases hc : isWs c = true
      · simp [hc] at h
      · simp only [hc, Bool.false_eq_true, ↓reduceIte, List.getLast?_singleton,
          Option.some.injEq] at h
        subst h
        simpa using hc
    | cons r rs =>
      rw [hr] at h
      simp only [List.getLast?_cons_cons] at h
      exact ih (hr ▸ h)

theorem trimRight_head (c : Char) (cs : Str) (h : trimRight (c :: cs) ≠ []) :
    (trimRight (c :: cs)).head? = some c := by
  simp only [trimRight] at h ⊢
  cases hr : trimRight cs with
  | nil =>
    rw [hr] at h
    by_cases hc : isWs c = true
    · simp [hc] at h
    · simp [hc]
  | cons r rs => simp

theorem trim_head (s : Str) (x : Char) (h : (trim s).head? = some x) : isWs x = false := by
  unfold trim at h
  cases hd : s.dropWhile isWs with
  | nil => rw [hd] at h; simp [trimRight] at h
  | cons c cs =>
    rw [hd] at h
    have hne : trimRight (c :: cs) ≠ [] := by
      intro h0
      rw [h0] at h
      simp at h
    rw [trimRight_head c cs hne] at h
    simp only [Option.some.injEq] at h
    subst h
    have := List.head_dropWhile_not isWs s (by rw [hd]; simp)
    simpa [hd] using this

theorem trim_getLast (s : Str) (x : Char) (h : (trim s).getLast? = some x) : isWs x = false :=
  trimRight_getLast _ x h

/-- The reference trimming is the library one: leading and trailing white space dropped. -/
theorem trim_eq_dropWhile (s : Str) : trim s = (s.dropWhile isWs).rdropWhile isWs := by
  unfold trim
  generalize s.dropWhile isWs = u
  induction u with
  | nil => rfl
  | cons c cs ih =>
    simp only [trimRight, ih, List.rdropWhile, List.reverse_cons, List.dropWhile_append]
    cases h : List.dropWhile isWs cs.reverse with
    | nil =>
      by_cases hc : isWs c = true <;> simp [hc]
    | cons r rs =>
      simp
      cases h2 : rs.reverse ++ [r] with
      | nil => simp at h2
      | cons a as => simp [← h2]

/-! ## Lines -/

theorem processBlock_buffer (st : AsyncBulkCommandManager) (b : Str) :
    processBlock { st with buffer := b } = { processBlock st with buffer := b } := by
  unfold processBlock
  split <;> rfl

theorem processTrimmed_buffer (st : AsyncBulkCommandManager) (b c : Str) :
    processTrimmed { st with buffer := b } c = { processTrimmed st c with buffer := b } := by
  obtain ⟨bs, cc, d, i, b0, id, n, su⟩ := st
  unfold processTrimmed processBlock
  by_cases h1 : c = ['\x7b']
  · cases i <;> cases cc <;> simp [h1]
  · by_cases h2 : c = ['\x7d']
    · cases i <;> cases cc <;> cases d <;> simp [h1, h2]
    · simp only [h1, h2, ↓reduceIte]
      split <;> simp

theorem processCommand_buffer (st : AsyncBulkCommandManager) (b c : Str) :
    processCommand { st with buffer := b } c = { processCommand st c with buffer := b } := by
  rw [processCommand_eq, processCommand_eq, processTrimmed_buffer]
  split <;> rfl

theorem foldl_processCommand_buffer (ls : List Str) (st : AsyncBulkCommandManager) (b : Str) :
    ls.foldl processCommand { st with buffer := b } =
      { ls.foldl processCommand st with buffer := b } := by
  induction ls generalizing st with
  | nil => rfl
  | cons l ls ih => simp only [List.foldl_cons, processCommand_buffer, ih]

theorem splitNL_cons_nl (cs : Str) :
    splitNL ('\n' :: cs) = ([] :: (splitNL cs).1, (splitNL cs).2) := by
  simp [splitNL]

theorem splitNL_cons_other (c : Char) (cs : Str) (hc : c ≠ '\n') :
    splitNL (c :: cs) =
      match (splitNL cs).1 with
      | [] => ([], c :: (splitNL cs).2)
      | l :: ls => ((c :: l) :: ls, (splitNL cs).2) := by
  simp [splitNL, hc]

theorem splitNL_lead (cur x : Str) (h : '\n' ∉ cur) :
    splitNL (cur ++ x) =
      match (splitNL x).1 with
      | [] => ([], cur ++ (splitNL x).2)
      | l :: ls => ((cur ++ l) :: ls, (splitNL x).2) := by
  induction cur with
  | nil => cases h1 : (splitNL x).1 <;> simp [← h1]
  | cons c cs ih =>
    have hc : c ≠ '\n' := fun h0 => h (by simp [h0])
    have hcs : '\n' ∉ cs := fun h0 => h (by simp [h0])
    rw [List.cons_append, splitNL_cons_other c _ hc, ih hcs]
    cases (splitNL x).1 <;> simp

theorem splitNL_noNL (s : Str) (h : '\n' ∉ s) : splitNL s = ([], s) := by
  have := splitNL_lead s [] h
  simpa [splitNL] using this

theorem scanLines_eq (x : Str) (st : AsyncBulkCommandManager) (cur : Str) (h : '\n' ∉ cur) :
    scanLines st cur x =
      ((splitNL (cur ++ x)).1.foldl processCommand st, (splitNL (cur ++ x)).2) := by
  induction x generalizing st cur with
  | nil => simp [scanLines, splitNL_noNL cur h]
  | cons c cs ih =>
    by_cases hc : c = '\n'
    · subst hc
      rw [splitNL_lead cur _ h, splitNL_cons_nl]
      simp only [scanLines, ↓reduceIte, List.foldl_cons, List.append_nil]
      rw [ih _ [] (by simp)]
      simp
    · simp only [scanLines, hc, ↓reduceIte]
      rw [ih st (cur ++ [c]) (by simp [h, Ne.symm hc])]
      simp

theorem splitNL_append (a b : Str) :
    splitNL (a ++ b) =
      ((splitNL a).1 ++ (splitNL ((splitNL a).2 ++ b)).1, (splitNL ((splitNL a).2 ++ b)).2) := by
  induction a with
  | nil => simp [splitNL]
  | cons c cs ih =>
    by_cases hc : c = '\n'
    · subst hc
      rw [List.cons_append, splitNL_cons_nl, splitNL_cons_nl, ih]
      simp
    · rw [List.cons_append, splitNL_cons_other c _ hc, splitNL_cons_other c _ hc, ih]
      cases h1 : (splitNL cs).1 with
      | nil =>
        simp only [List.nil_append, List.cons_append]
        rw [splitNL_cons_other c _ hc]
      | cons l ls => simp

theorem splitNL_rest (s : Str) : '\n' ∉ (splitNL s).2 := by
  induction s with
  | nil => simp [splitNL]
  | cons c cs ih =>
    by_cases hc : c = '\n'
    · simp [splitNL, hc, ih]
    · simp only [splitNL, hc, ↓reduceIte]
      cases h1 : (splitNL cs).1 with
      | nil => simp [ih, Ne.symm hc]
      | cons l ls => simpa using ih

theorem addData_eq_feed (st : AsyncBulkCommandManager) (data : Str) (h : '\n' ∉ st.buffer) :
    addData st data = feed st data := by
  unfold addData feed
  split
  · rename_i hd
    have : data = [] := by simpa using hd
    subst this
    simp [splitNL_noNL _ h]
  · simp only
    rw [scanLines_eq _ _ [] (by simp)]
    simp [foldl_processCommand_buffer]

theorem foldl_processCommand_buffer_eq (ls : List Str) (st : AsyncBulkCommandManager) :
    (ls.foldl processCommand st).buffer = st.buffer := by
  have := foldl_processCommand_buffer ls st st.buffer
  have h2 : ({ st with buffer := st.buffer } : AsyncBulkCommandManager) = st := rfl
  rw [h2] at this
  rw [this]

theorem feed_buffer (st : AsyncBulkCommandManager) (data : Str) : '\n' ∉ (feed st data).buffer :=
  splitNL_rest _

theorem feed_feed (st : AsyncBulkCommandManager) (a b : Str) :
    feed (feed st a) b = feed st (a ++ b) := by
  unfold feed
  simp only [foldl_processCommand_buffer]
  rw [← List.append_assoc, splitNL_append (st.buffer ++ a) b]
  simp [List.foldl_append]

theorem foldl_addData_eq_feed (chunks : List Str) (st : AsyncBulkCommandManager)
    (h : '\n' ∉ st.buffer) : chunks.foldl addData st = feed st chunks.flatten := by
  induction chunks generalizing st with
  | nil =>
    simp only [List.foldl_nil, List.flatten_nil]
    rw [← addData_eq_feed st [] h]
    simp [addData]
  | cons c cs ih =>
    simp only [List.foldl_cons, List.flatten_cons]
    rw [addData_eq_feed st c h, ih _ (feed_buffer st c), feed_feed]

/-! ## From bytes to tokens -/

theorem flush_eq (st : AsyncBulkCommandManager) : flush st = flushPending (drainBuffer st) := rfl

theorem processCommand_nil (st : AsyncBulkCommandManager) : processCommand st [] = st := rfl

theorem drainBuffer_eq (st : AsyncBulkCommandManager) :
    drainBuffer st = { processCommand st st.buffer with buffer := [] } := by
  unfold drainBuffer
  split
  · rfl
  · rename_i h
    have hb : st.buffer = [] := by simpa using h
    rw [hb, processCommand_nil]
    cases st
    simp_all

theorem foldl_processCommand_tokens (raws : List Str) (st : AsyncBulkCommandManager) :
    raws.foldl processCommand st =
      ((raws.map trim).filter (fun t => !t.isEmpty)).foldl processTrimmed st := by
  induction raws generalizing st with
  | nil => rfl
  | cons r rs ih =>
    simp only [List.foldl_cons, List.map_cons, List.filter_cons, processCommand_eq]
    by_cases h : (trim r).isEmpty = true
    · simp [h, ih]
    · simp [h, ih]

theorem drainBuffer_feed (st : AsyncBulkCommandManager) (s : Str) (h : st.buffer = []) :
    drainBuffer (feed st s) = (tokens s).foldl processTrimmed st := by
  rw [drainBuffer_eq]
  unfold feed tokens
  rw [h, List.nil_append, processCommand_buffer, List.map_append, List.filter_append,
    List.foldl_append, ← foldl_processCommand_tokens, ← foldl_processCommand_tokens]
  simp only [List.foldl_cons, List.foldl_nil]
  have hb := foldl_processCommand_buffer_eq ((splitNL s).1 ++ [(splitNL s).2]) st
  rw [h, List.foldl_append] at hb
  simp only [List.foldl_cons, List.foldl_nil] at hb
  generalize processCommand (List.foldl processCommand st (splitNL s).1) (splitNL s).2 = z at hb ⊢
  cases z
  simp_all

/-- Ingesting `s` in a context with an empty buffer and flushing: the trimmed tokens of `s`
are dispatched in order, then the remaining commands are emitted. -/
theorem flush_addData (st : AsyncBulkCommandManager) (s : Str) (h : st.buffer = []) :
    flush (addData st s) = flushPending ((tokens s).foldl processTrimmed st) := by
  rw [addData_eq_feed st s (by simp [h]), flush_eq, drainBuffer_feed st s h]

/-! ## Batches -/

theorem batchesAux_fuel {α : Type} (N : Nat) (hN : 1 ≤ N) (f : Nat) :
    ∀ (l : List α), l.length ≤ f → batchesAux N f l = batchesAux N l.length l := by
  induction f using Nat.strong_induction_on with
  | _ f ih =>
    intro l hl
    cases l with
    | nil => cases f <;> simp [batchesAux]
    | cons a as =>
      cases f with
      | zero => simp at hl
      | succ f =>
        simp only [batchesAux, List.isEmpty_cons, Bool.false_eq_true, ↓reduceIte, List.length_cons,
          List.cons.injEq, true_and]
        have hd : ((a :: as).drop N).length ≤ as.length := by
          simp only [List.length_drop, List.length_cons]; omega
        have hf : as.length ≤ f := by simpa using hl
        rw [ih f (Nat.lt_succ_self f) _ (le_trans hd hf)]
        rw [ih as.length (by omega) _ hd]

theorem batches_nil {α : Type} (N : Nat) : batches N ([] : List α) = [] := rfl

theorem batches_cons {α : Type} (N : Nat) (hN : 1 ≤ N) (l : List α) (hl : l ≠ []) :
    batches N l = l.take N :: batches N (l.drop N) := by
  cases l with
  | nil => exact absurd rfl hl
  | cons a as =>
    unfold batches
    simp only [List.length_cons, batchesAux, List.isEmpty_cons, Bool.false_eq_true, ↓reduceIte,
      List.cons.injEq, true_and]
    apply batchesAux_fuel N hN
    simp only [List.length_drop, List.length_cons]
    omega

theorem batches_full {α : Type} (N : Nat) (hN : 1 ≤ N) (p ts : List α) (hp : p.length = N) :
    batches N (p ++ ts) = p :: batches N ts := by
  have hne : p ++ ts ≠ [] := by
    intro h0
    have : p = [] := (List.append_eq_nil.mp h0).1
    subst this
    simp at hp
    omega
  rw [batches_cons N hN _ hne, ← hp, List.take_left, List.drop_left]

theorem batches_short {α : Type} (N : Nat) (hN : 1 ≤ N) (p : List α) (hp : p.length ≤ N) :
    batches N p = if p.isEmpty then [] else [p] := by
  cases p with
  | nil => rfl
  | cons a as =>
    rw [batches_cons N hN _ (by simp), List.take_of_length_le hp, List.drop_of_length_le hp]
    rfl

theorem batches_spec {α : Type} (N : Nat) (hN : 1 ≤ N) (n : Nat) :
    ∀ (l : List α), l.length ≤ n →
      (batches N l).flatten = l ∧ (∀ b ∈ (batches N l).dropLast, b.length = N) ∧
        (∀ b ∈ (batches N l).getLast?, 1 ≤ b.length ∧ b.length ≤ N) := by
  induction n with
  | zero =>
    intro l hl
    have : l = [] := List.length_eq_zero.mp (Nat.le_zero.mp hl)
    subst this
    simp [batches_nil]
  | succ n ih =>
    intro l hl
    by_cases hne : l = []
    · subst hne
      simp [batches_nil]
    · have hpos : 0 < l.length := List.length_pos.mpr hne
      rw [batches_cons N hN l hne]
      obtain ⟨h1, h2, h3⟩ := ih (l.drop N) (by simp only [List.length_drop]; omega)
      refine ⟨by rw [List.flatten_cons, h1, List.take_append_drop], ?_, ?_⟩
      · intro b hb
        cases hr : batches N (l.drop N) with
        | nil => rw [hr] at hb; simp at hb
        | cons r rs =>
          rw [hr, List.dropLast_cons₂] at hb
          rcases List.mem_cons.mp hb with hb | hb
          · subst hb
            have hd : l.drop N ≠ [] := by
              intro h0
              rw [h0, batches_nil] at hr
              cases hr
            have : N < l.length := by
              by_contra hlt
              exact hd (List.drop_of_length_le (by omega))
            simp only [List.length_take]
            omega
          · exact h2 b (hr ▸ hb)
      · intro b hb
        cases hr : batches N (l.drop N) with
        | nil =>
          rw [hr] at hb
          simp only [List.getLast?_singleton, Option.mem_def, Option.some.injEq] at hb
          subst hb
          simp only [List.length_take]
          omega
        | cons r rs =>
          rw [hr, List.getLast?_cons_cons] at hb
          exact h3 b (hr ▸ hb)

/-! ## Static and dynamic runs of commands -/

theorem processBlock_currentCommands (st : AsyncBulkCommandManager) :
    (processBlock st).currentCommands = [] := by
  unfold processBlock
  split
  · rename_i h; simpa using h
  · rfl

theorem processBlock_blockSize (st : AsyncBulkCommandManager) :
    (processBlock st).blockSize = st.blockSize := by
  unfold processBlock
  split <;> rfl

theorem processBlock_dynamicBlockSizes (st : AsyncBulkCommandManager) :
    (processBlock st).dynamicBlockSizes = st.dynamicBlockSizes := by
  unfold processBlock
  split <;> rfl

theorem processBlock_inDynamicBlock (st : AsyncBulkCommandManager) :
    (processBlock st).inDynamicBlock = st.inDynamicBlock := by
  unfold processBlock
  split <;> rfl

theorem processBlock_context_id (st : AsyncBulkCommandManager) :
    (processBlock st).context_id = st.context_id := by
  unfold processBlock
  split <;> rfl

theorem processBlock_buffer_eq (st : AsyncBulkCommandManager) :
    (processBlock st).buffer = st.buffer := by
  unfold processBlock
  split <;> rfl



theorem bulks_processBlock (st : AsyncBulkCommandManager) :
    bulks (processBlock st) =
      bulks st ++ (if st.currentCommands.isEmpty then [] else [st.currentCommands]) := by
  unfold processBlock bulks
  split <;> simp

theorem processTrimmed_command (st : AsyncBulkCommandManager) (c : Str)
    (h1 : c ≠ lbrace) (h2 : c ≠ rbrace) :
    processTrimmed st c =
      if !st.inDynamicBlock && decide (st.blockSize > 0)
          && decide ((st.currentCommands ++ [c]).length ≥ st.blockSize) then
        processBlock { st with currentCommands := st.currentCommands ++ [c] }
      else { st with currentCommands := st.currentCommands ++ [c] } := by
  unfold processTrimmed
  unfold lbrace at h1
  unfold rbrace at h2
  simp only [h1, h2, ↓reduceIte]

/-- Commands in the static state: the blocks submitted so far, followed by the batches of the
remaining commands, are the batches of everything received. -/
theorem foldl_static (N : Nat) (hN : 1 ≤ N) (toks : List Str)
    (hm : ∀ t ∈ toks, t ≠ lbrace ∧ t ≠ rbrace) :
    ∀ (st : AsyncBulkCommandManager), st.inDynamicBlock = false → st.blockSize = N →
      st.currentCommands.length < N →
      (toks.foldl processTrimmed st).inDynamicBlock = false ∧
      (toks.foldl processTrimmed st).blockSize = N ∧
      (toks.foldl processTrimmed st).dynamicBlockSizes = st.dynamicBlockSizes ∧
      (toks.foldl processTrimmed st).currentCommands.length < N ∧
      bulks (toks.foldl processTrimmed st)
          ++ batches N (toks.foldl processTrimmed st).currentCommands =
        bulks st ++ batches N (st.currentCommands ++ toks) := by
  induction toks with
  | nil => intro st h1 h2 h3; simp [h1, h2, h3]
  | cons t ts ih =>
    intro st h1 h2 h3
    have ht := hm t (by simp)
    have hts : ∀ t ∈ ts, t ≠ lbrace ∧ t ≠ rbrace := fun x hx => hm x (by simp [hx])
    simp only [List.foldl_cons]
    rw [processTrimmed_command st t ht.1 ht.2]
    by_cases hfull : (st.currentCommands ++ [t]).length ≥ N
    · have hlen : (st.currentCommands ++ [t]).length = N := by
        simp only [List.length_append, List.length_singleton] at hfull ⊢
        omega
      have hc : (!st.inDynamicBlock && decide (st.blockSize > 0)
          && decide ((st.currentCommands ++ [t]).length ≥ st.blockSize)) = true := by
        simp only [h1, h2, Bool.not_false, Bool.true_and, Bool.and_eq_true, decide_eq_true_eq]
        exact ⟨by omega, hfull⟩
      rw [if_pos hc]
      have hpb : processBlock { st with currentCommands := st.currentCommands ++ [t] } =
          { st with
            currentCommands := []
            block_counter := wrapInt32 (st.block_counter + 1)
            submitted := st.submitted ++
              [{ commands := st.currentCommands ++ [t], context_id := st.context_id,
                 block_number := st.block_counter }] } := by
        simp [processBlock]
      rw [hpb]
      obtain ⟨g1, g2, g3, g4, g5⟩ := ih hts
        { st with
          currentCommands := []
          block_counter := wrapInt32 (st.block_counter + 1)
          submitted := st.submitted ++
            [{ commands := st.currentCommands ++ [t], context_id := st.context_id,
               block_number := st.block_counter }] } h1 h2 (Nat.lt_of_lt_of_le Nat.zero_lt_one hN)
      refine ⟨g1, g2, g3, g4, ?_⟩
      rw [g5]
      have : st.currentCommands ++ t :: ts = (st.currentCommands ++ [t]) ++ ts := by simp
      rw [this, batches_full N hN _ ts hlen]
      simp [bulks]
    · have hc : ¬ ((!st.inDynamicBlock && decide (st.blockSize > 0)
          && decide ((st.currentCommands ++ [t]).length ≥ st.blockSize)) = true) := by
        simp only [h1, h2, Bool.not_false, Bool.true_and, Bool.and_eq_true, decide_eq_true_eq,
          not_and]
        intro _
        exact hfull
      rw [if_neg hc]
      obtain ⟨g1, g2, g3, g4, g5⟩ := ih hts { st with currentCommands := st.currentCommands ++ [t] }
        h1 h2 (by simpa using Nat.lt_of_not_ge hfull)
      refine ⟨g1, g2, g3, g4, ?_⟩
      rw [g5]
      simp [bulks]

/-- Commands inside a dynamic block only accumulate. -/
theorem foldl_dynamic (toks : List Str) (hm : ∀ t ∈ toks, t ≠ lbrace ∧ t ≠ rbrace) :
    ∀ (st : AsyncBulkCommandManager), st.inDynamicBlock = true →
      toks.foldl processTrimmed st = { st with currentCommands := st.currentCommands ++ toks } := by
  induction toks with
  | nil => intro st _; simp
  | cons t ts ih =>
    intro st h1
    have ht := hm t (by simp)
    have hts : ∀ t ∈ ts, t ≠ lbrace ∧ t ≠ rbrace := fun x hx => hm x (by simp [hx])
    simp only [List.foldl_cons]
    rw [processTrimmed_command st t ht.1 ht.2]
    simp only [h1, Bool.not_true, Bool.false_and, Bool.false_eq_true, ↓reduceIte]
    rw [ih hts { st with currentCommands := st.currentCommands ++ [t], inDynamicBlock := true } rfl]
    simp

theorem bulks_flushPending_static (N : Nat) (hN : 1 ≤ N) (st : AsyncBulkCommandManager)
    (h1 : st.inDynamicBlock = false) (h3 : st.currentCommands.length < N) :
    bulks (flushPending st) = bulks st ++ batches N st.currentCommands := by
  unfold flushPending
  rw [batches_short N hN _ (Nat.le_of_lt h3)]
  by_cases he : st.currentCommands.isEmpty = true
  · simp [h1, he]
  · simp only [h1, Bool.not_false, Bool.true_and, he, Bool.not_eq_true, Bool.not_false,
      ↓reduceIte, bulks_processBlock]

/-- Without block markers the submitted blocks are the batches of the tokens. -/
theorem bulks_static (N : Nat) (hN : 1 ≤ N) (id s : Str)
    (hm : ∀ t ∈ tokens s, t ≠ lbrace ∧ t ≠ rbrace) :
    bulks (flush (addData (AsyncBulkCommandManager.create N id) s)) = batches N (tokens s) := by
  rw [flush_addData _ _ rfl]
  obtain ⟨g1, _, _, g4, g5⟩ := foldl_static N hN (tokens s) hm
    (AsyncBulkCommandManager.create N id) rfl rfl (by simpa [AsyncBulkCommandManager.create] using hN)
  rw [bulks_flushPending_static N hN _ g1 g4, g5]
  simp [AsyncBulkCommandManager.create, bulks]

theorem processTrimmed_lbrace_static (st : AsyncBulkCommandManager)
    (h : st.inDynamicBlock = false) :
    processTrimmed st lbrace =
      { processBlock st with
        dynamicBlockSizes := st.blockSize :: st.dynamicBlockSizes
        blockSize := 0
        inDynamicBlock := true } := by
  obtain ⟨bs, cc, d, i, b0, id, n, su⟩ := st
  simp only at h
  subst h
  cases cc <;> simp [processTrimmed, processBlock, lbrace]

theorem processTrimmed_rbrace_dynamic (st : AsyncBulkCommandManager) (top : Nat) (rest : List Nat)
    (h : st.inDynamicBlock = true) (hs : st.dynamicBlockSizes = top :: rest) :
    processTrimmed st rbrace =
      { processBlock st with
        blockSize := top
        dynamicBlockSizes := rest
        inDynamicBlock := !rest.isEmpty } := by
  obtain ⟨bs, cc, d, i, b0, id, n, su⟩ := st
  simp only at h hs
  subst h hs
  cases cc <;> simp [processTrimmed, processBlock, rbrace]

theorem lbrace_static_facts (st : AsyncBulkCommandManager) (h : st.inDynamicBlock = false) :
    (processTrimmed st lbrace).inDynamicBlock = true ∧
    (processTrimmed st lbrace).currentCommands = [] ∧
    (processTrimmed st lbrace).dynamicBlockSizes = st.blockSize :: st.dynamicBlockSizes ∧
    bulks (processTrimmed st lbrace) = bulks (processBlock st) := by
  rw [processTrimmed_lbrace_static st h]
  refine ⟨rfl, processBlock_currentCommands st, ?_, rfl⟩
  simp [processBlock_blockSize, processBlock_dynamicBlockSizes]

theorem rbrace_dynamic_facts (st : AsyncBulkCommandManager) (top : Nat) (rest : List Nat)
    (h : st.inDynamicBlock = true) (hs : st.dynamicBlockSizes = top :: rest) :
    (processTrimmed st rbrace).inDynamicBlock = !rest.isEmpty ∧
    (processTrimmed st rbrace).currentCommands = [] ∧
    (processTrimmed st rbrace).blockSize = top ∧
    (processTrimmed st rbrace).dynamicBlockSizes = rest ∧
    bulks (processTrimmed st rbrace) = bulks (processBlock st) := by
  rw [processTrimmed_rbrace_dynamic st top rest h hs]
  exact ⟨rfl, processBlock_currentCommands st, rfl, rfl, rfl⟩

theorem foldl_dynamic_facts (toks : List Str) (hm : ∀ t ∈ toks, t ≠ lbrace ∧ t ≠ rbrace)
    (st : AsyncBulkCommandManager) (h : st.inDynamicBlock = true) :
    (toks.foldl processTrimmed st).inDynamicBlock = true ∧
    (toks.foldl processTrimmed st).currentCommands = st.currentCommands ++ toks ∧
    (toks.foldl processTrimmed st).dynamicBlockSizes = st.dynamicBlockSizes ∧
    bulks (toks.foldl processTrimmed st) = bulks st := by
  rw [foldl_dynamic toks hm st h]
  exact ⟨h, rfl, rfl, rfl⟩

/-- One dynamic block between two static runs. -/
theorem bulks_one_block (N : Nat) (hN : 1 ≤ N) (P Q R : List Str)
    (hP : ∀ t ∈ P, t ≠ lbrace ∧ t ≠ rbrace) (hQ : ∀ t ∈ Q, t ≠ lbrace ∧ t ≠ rbrace)
    (hR : ∀ t ∈ R, t ≠ lbrace ∧ t ≠ rbrace) (st : AsyncBulkCommandManager)
    (h1 : st.inDynamicBlock = false) (h2 : st.blockSize = N) (h3 : st.currentCommands = [])
    (h4 : st.dynamicBlockSizes = []) (h5 : st.submitted = []) :
    bulks (flushPending ((P ++ lbrace :: (Q ++ rbrace :: R)).foldl processTrimmed st)) =
      batches N P ++ (if Q.isEmpty then [] else [Q]) ++ batches N R := by
  obtain ⟨p1, p2, p3, p4, p5⟩ := foldl_static N hN P hP st h1 h2 (by rw [h3]; exact hN)
  rw [List.foldl_append, List.foldl_cons, List.foldl_append, List.foldl_cons]
  generalize List.foldl processTrimmed st P = st1 at p1 p2 p3 p4 p5 ⊢
  have hb1 : bulks (processBlock st1) = batches N P := by
    rw [bulks_processBlock, ← batches_short N hN _ (Nat.le_of_lt p4), p5, h3]
    simp [bulks, h5]
  obtain ⟨q1, q2, q3, q4⟩ := lbrace_static_facts st1 p1
  rw [p2, p3, h4] at q3
  rw [hb1] at q4
  generalize processTrimmed st1 lbrace = st2 at q1 q2 q3 q4 ⊢
  obtain ⟨d1, d2, d3, d4⟩ := foldl_dynamic_facts Q hQ st2 q1
  rw [q2, List.nil_append] at d2
  rw [q3] at d3
  rw [q4] at d4
  generalize List.foldl processTrimmed st2 Q = st3 at d1 d2 d3 d4 ⊢
  obtain ⟨e1, e2, e3, e4, e5⟩ := rbrace_dynamic_facts st3 N [] d1 d3
  rw [bulks_processBlock, d2, d4] at e5
  generalize processTrimmed st3 rbrace = st4 at e1 e2 e3 e4 e5 ⊢
  obtain ⟨r1, _, _, r4, r5⟩ := foldl_static N hN R hR st4 e1 e3 (by rw [e2]; exact hN)
  rw [bulks_flushPending_static N hN _ r1 r4, r5, e5, e2, List.nil_append]

/-! ## Nested dynamic blocks -/

/-- Inside a dynamic block a `}` submits the pending commands at every depth: the depth is
looked at only after `processBlock` has run. -/
theorem rbrace_emits_at_any_depth (st : AsyncBulkCommandManager)
    (h : st.inDynamicBlock = true) :
    bulks (processTrimmed st rbrace) =
      bulks st ++ (if st.currentCommands.isEmpty then [] else [st.currentCommands]) := by
  obtain ⟨bs, cc, d, i, b0, id, n, su⟩ := st
  simp only at h
  subst h
  cases cc <;> cases d <;> simp [processTrimmed, processBlock, rbrace, bulks]

/-- C1, as the code behaves: with static size 5 the input `{ a { b } c }` (one token per line)
reaches depth 2 with `[a, b]` pending, the inner `}` submits `[a, b]` although the depth is
2, and the whole input followed by a disconnect yields the two blocks `[a, b]` and `[c]`,
not the single block `[a, b, c]`. -/
theorem nested_rbrace_emits :
    (addData (AsyncBulkCommandManager.create 5 ['0'])
        "\x7b\na\n\x7b\nb\n".toList).dynamicBlockSizes.length = 2 ∧
    (addData (AsyncBulkCommandManager.create 5 ['0'])
        "\x7b\na\n\x7b\nb\n".toList).currentCommands = [['a'], ['b']] ∧
    bulks (addData (AsyncBulkCommandManager.create 5 ['0'])
        "\x7b\na\n\x7b\nb\n".toList) = [] ∧
    bulks (processCommand (addData (AsyncBulkCommandManager.create 5 ['0'])
        "\x7b\na\n\x7b\nb\n".toList) rbrace) = [[['a'], ['b']]] ∧
    bulks (destroyContext (addData (AsyncBulkCommandManager.create 5 ['0'])
        "\x7b\na\n\x7b\nb\n\x7d\nc\n\x7d\n".toList)) = [[['a'], ['b']], [['c']]] := by
  decide

/-! ## Chunked input -/

/-- C2: for every static size and every list of chunks, feeding the chunks one by one to a
fresh context leaves it in the same state as feeding their concatenation in one call, and a
flush then submits the same blocks (same commands, same order, same numbers). -/
theorem chunked_addData (N : Nat) (id : Str) (chunks : List Str) :
    chunks.foldl addData (AsyncBulkCommandManager.create N id) =
      addData (AsyncBulkCommandManager.create N id) chunks.flatten ∧
    (flush (chunks.foldl addData (AsyncBulkCommandManager.create N id))).submitted =
      (flush (addData (AsyncBulkCommandManager.create N id) chunks.flatten)).submitted := by
  have h : chunks.foldl addData (AsyncBulkCommandManager.create N id) =
      addData (AsyncBulkCommandManager.create N id) chunks.flatten := by
    rw [foldl_addData_eq_feed chunks _ (by simp [AsyncBulkCommandManager.create]),
      addData_eq_feed _ _ (by simp [AsyncBulkCommandManager.create])]
  exact ⟨h, by rw [h]⟩

/-- Scenario D: static size 5 and the chunks `"1"`, `"\n2\n3\n4\n5\n6\n{\na\n"`,
`"b\nc\nd\n}\n89\n"`, then a disconnect. -/
theorem scenario_D_chunks :
    bulks (destroyContext (["1".toList, "\n2\n3\n4\n5\n6\n\x7b\na\n".toList,
        "b\nc\nd\n\x7d\n89\n".toList].foldl addData (AsyncBulkCommandManager.create 5 ['0']))) =
      [[['1'], ['2'], ['3'], ['4'], ['5']], [['6']], [['a'], ['b'], ['c'], ['d']], [['8', '9']]] := by
  decide

/-! ## Static batches -/

/-- C3: for a static size `N ≥ 1` and an input without `{` or `}` token, ingest followed by
flush on a fresh context submits blocks whose concatenation is the list of trimmed non-empty
tokens of the input in order; every block but the last has exactly `N` commands and the last
has between 1 and `N`. -/
theorem static_batches (N : Nat) (hN : 1 ≤ N) (id s : Str)
    (hm : ∀ t ∈ tokens s, t ≠ lbrace ∧ t ≠ rbrace) :
    (bulks (flush (addData (AsyncBulkCommandManager.create N id) s))).flatten = tokens s ∧
    (∀ b ∈ (bulks (flush (addData (AsyncBulkCommandManager.create N id) s))).dropLast,
      b.length = N) ∧
    (∀ b ∈ (bulks (flush (addData (AsyncBulkCommandManager.create N id) s))).getLast?,
      1 ≤ b.length ∧ b.length ≤ N) := by
  rw [bulks_static N hN id s hm]
  exact batches_spec N hN _ _ (Nat.le_refl _)

/-- Scenarios A and E: `N = 3` on `"1\n2\n3\n4\n5\n"` and `N = 2` on `"x\ny\nz"`. -/
theorem static_batches_witness :
    ((bulks (flush (addData (AsyncBulkCommandManager.create 3 ['0'])
        "1\n2\n3\n4\n5\n".toList))).flatten = tokens "1\n2\n3\n4\n5\n".toList ∧
      (∀ b ∈ (bulks (flush (addData (AsyncBulkCommandManager.create 3 ['0'])
        "1\n2\n3\n4\n5\n".toList))).dropLast, b.length = 3) ∧
      (∀ b ∈ (bulks (flush (addData (AsyncBulkCommandManager.create 3 ['0'])
        "1\n2\n3\n4\n5\n".toList))).getLast?, 1 ≤ b.length ∧ b.length ≤ 3)) ∧
    bulks (flush (addData (AsyncBulkCommandManager.create 3 ['0']) "1\n2\n3\n4\n5\n".toList)) =
      [[['1'], ['2'], ['3']], [['4'], ['5']]] ∧
    bulks (flush (addData (AsyncBulkCommandManager.create 2 ['0']) "x\ny\nz".toList)) =
      [[['x'], ['y']], [['z']]] :=
  ⟨static_batches 3 (by decide) ['0'] "1\n2\n3\n4\n5\n".toList (by decide), by decide, by decide⟩

/-! ## One dynamic block -/

/-- C4: for a static size `N ≥ 1` and an input whose tokens are `P`, `{`, `Q`, `}`, `R` with
`P`, `Q`, `R` free of markers, a fresh context followed by flush submits the size-`N` batches
of `P`, then `Q` as one block whatever its length (nothing when `Q` is empty), then the
size-`N` batches of `R`. -/
theorem dynamic_block_batches (N : Nat) (hN : 1 ≤ N) (id s : Str) (P Q R : List Str)
    (hs : tokens s = P ++ lbrace :: (Q ++ rbrace :: R))
    (hP : ∀ t ∈ P, t ≠ lbrace ∧ t ≠ rbrace) (hQ : ∀ t ∈ Q, t ≠ lbrace ∧ t ≠ rbrace)
    (hR : ∀ t ∈ R, t ≠ lbrace ∧ t ≠ rbrace) :
    bulks (flush (addData (AsyncBulkCommandManager.create N id) s)) =
      batches N P ++ (if Q.isEmpty then [] else [Q]) ++ batches N R := by
  rw [flush_addData _ _ rfl, hs]
  exact bulks_one_block N hN P Q R hP hQ hR _ rfl rfl rfl rfl rfl

/-- Scenario B: `N = 3` on `"1\n2\n{\na\nb\nc\nd\n}\n3\n"`. -/
theorem dynamic_block_batches_witness :
    bulks (flush (addData (AsyncBulkCommandManager.create 3 ['0'])
        "1\n2\n\x7b\na\nb\nc\nd\n\x7d\n3\n".toList)) =
      batches 3 [['1'], ['2']] ++ (if [['a'], ['b'], ['c'], ['d']].isEmpty then []
        else [[['a'], ['b'], ['c'], ['d']]]) ++ batches 3 [['3']] ∧
    batches 3 [['1'], ['2']] ++ (if [['a'], ['b'], ['c'], ['d']].isEmpty then []
        else [[['a'], ['b'], ['c'], ['d']]]) ++ batches 3 [['3']] =
      [[['1'], ['2']], [['a'], ['b'], ['c'], ['d']], [['3']]] :=
  ⟨dynamic_block_batches 3 (by decide) ['0'] "1\n2\n\x7b\na\nb\nc\nd\n\x7d\n3\n".toList
      [['1'], ['2']] [['a'], ['b'], ['c'], ['d']] [['3']] (by decide) (by decide) (by decide)
      (by decide), by decide⟩

/-! ## Flush and destruction -/

/-- Outside a dynamic block the destructor is `flush`, and a second `flush` right after a
`flush` submits nothing. -/
theorem flush_flush_submitted (st : AsyncBulkCommandManager) :
    (destroy (flush st)).submitted = (flush st).submitted := by
  have hd := drainBuffer_eq st
  unfold destroy
  simp only [flush_eq, hd]
  generalize processCommand st st.buffer = st1
  obtain ⟨bs, cc, d, i, b0, id, n, su⟩ := st1
  cases i <;> cases cc <;> simp [flushPending, processBlock, drainBuffer]

/-- Inside a dynamic block `flush` submits nothing, unless the carried-over bytes are a `}`
and commands are pending. -/
theorem flush_dynamic_quiet (st : AsyncBulkCommandManager) (h : st.inDynamicBlock = true)
    (hb : trim st.buffer = rbrace → st.currentCommands = []) :
    (flush st).submitted = st.submitted := by
  rw [flush_eq, drainBuffer_eq, processCommand_eq]
  generalize trim st.buffer = t at hb
  obtain ⟨bs, cc, d, i, b0, id, n, su⟩ := st
  simp only at h hb
  subst h
  by_cases h0 : t.isEmpty = true
  · simp [h0, flushPending]
  · by_cases h1 : t = lbrace
    · subst h1
      simp [processTrimmed, lbrace, flushPending]
    · by_cases h2 : t = rbrace
      · have hc := hb h2
        subst h2 hc
        cases d <;> simp [processTrimmed, processBlock, rbrace, flushPending]
      · rw [if_neg h0, processTrimmed_command _ t h1 h2]
        simp [flushPending]

/-- Inside a dynamic block with a `}` carried over, `flush` submits the pending commands as
one block. -/
theorem flush_dynamic_rbrace (st : AsyncBulkCommandManager) (h : st.inDynamicBlock = true)
    (hb : trim st.buffer = rbrace) :
    (flush st).submitted = st.submitted ++
      (if st.currentCommands.isEmpty then []
        else [{ commands := st.currentCommands, context_id := st.context_id,
                block_number := st.block_counter }]) := by
  rw [flush_eq, drainBuffer_eq, processCommand_eq, hb]
  obtain ⟨bs, cc, d, i, b0, id, n, su⟩ := st
  simp only at h
  subst h
  cases cc <;> cases d <;> simp [processTrimmed, processBlock, rbrace, flushPending]

/-- C5, amended: for every context state, `flush` first runs the carried-over `buffer`
through `processCommand` as one last token, which may itself submit a block by the token
rules, and clears the buffer; it then submits the remaining commands as one block exactly
when the context is then outside a dynamic block with commands pending; the destructor that
follows (disconnect) submits nothing more. A context that is inside a dynamic block after
the last token gets nothing beyond what that token submitted. A context that is inside a
dynamic block, and whose carried-over bytes are not a `}` with commands pending (an empty
buffer in particular), gets no block at all from flush and destruction: its pending commands
are lost. -/
theorem flush_policy (st : AsyncBulkCommandManager) :
    (flush st).buffer = [] ∧
    (flush st).submitted = (processCommand st st.buffer).submitted ++
      (if (processCommand st st.buffer).inDynamicBlock
          || (processCommand st st.buffer).currentCommands.isEmpty then []
        else [{ commands := (processCommand st st.buffer).currentCommands
                context_id := (processCommand st st.buffer).context_id
                block_number := (processCommand st st.buffer).block_counter }]) ∧
    (destroyContext st).submitted = (flush st).submitted ∧
    ((processCommand st st.buffer).inDynamicBlock = true →
      (destroyContext st).submitted = (processCommand st st.buffer).submitted) ∧
    (st.inDynamicBlock = true → (trim st.buffer = rbrace → st.currentCommands = []) →
      (flush st).submitted = st.submitted ∧ (destroyContext st).submitted = st.submitted) := by
  refine ⟨?_, ?_, flush_flush_submitted st, ?_, ?_⟩
  · rw [flush_eq, drainBuffer_eq]
    generalize processCommand st st.buffer = st1
    obtain ⟨bs, cc, d, i, b0, id, n, su⟩ := st1
    cases i <;> cases cc <;> simp [flushPending, processBlock]
  · rw [flush_eq, drainBuffer_eq]
    generalize processCommand st st.buffer = st1
    obtain ⟨bs, cc, d, i, b0, id, n, su⟩ := st1
    cases i <;> cases cc <;> simp [flushPending, processBlock]
  · intro h
    unfold destroyContext
    rw [flush_flush_submitted, flush_eq, drainBuffer_eq]
    generalize processCommand st st.buffer = st1 at h
    obtain ⟨bs, cc, d, i, b0, id, n, su⟩ := st1
    simp only at h
    subst h
    simp [flushPending]
  · intro h hb
    have hq := flush_dynamic_quiet st h hb
    refine ⟨hq, ?_⟩
    unfold destroyContext
    rw [flush_flush_submitted, hq]

/-- Scenario F: static size 2, input `"a\n{\nb\nc\n"`, then disconnect: the context is
inside the dynamic block with an empty buffer, flush and destruction submit nothing, and the
only block is the `[a]` submitted earlier; `b` and `c` are lost. -/
theorem flush_policy_witness :
    (processCommand (addData (AsyncBulkCommandManager.create 2 ['0'])
        "a\n\x7b\nb\nc\n".toList) (addData (AsyncBulkCommandManager.create 2 ['0'])
        "a\n\x7b\nb\nc\n".toList).buffer).inDynamicBlock = true ∧
    (destroyContext (addData (AsyncBulkCommandManager.create 2 ['0'])
        "a\n\x7b\nb\nc\n".toList)).submitted =
      (processCommand (addData (AsyncBulkCommandManager.create 2 ['0'])
        "a\n\x7b\nb\nc\n".toList) (addData (AsyncBulkCommandManager.create 2 ['0'])
        "a\n\x7b\nb\nc\n".toList).buffer).submitted ∧
    ((flush (addData (AsyncBulkCommandManager.create 2 ['0'])
        "a\n\x7b\nb\nc\n".toList)).submitted =
      (addData (AsyncBulkCommandManager.create 2 ['0']) "a\n\x7b\nb\nc\n".toList).submitted ∧
     (destroyContext (addData (AsyncBulkCommandManager.create 2 ['0'])
        "a\n\x7b\nb\nc\n".toList)).submitted =
      (addData (AsyncBulkCommandManager.create 2 ['0']) "a\n\x7b\nb\nc\n".toList).submitted) ∧
    (addData (AsyncBulkCommandManager.create 2 ['0']) "a\n\x7b\nb\nc\n".toList).currentCommands =
      [['b'], ['c']] ∧
    bulks (destroyContext (addData (AsyncBulkCommandManager.create 2 ['0'])
        "a\n\x7b\nb\nc\n".toList)) = [[['a']]] :=
  ⟨by decide,
    (flush_policy (addData (AsyncBulkCommandManager.create 2 ['0'])
      "a\n\x7b\nb\nc\n".toList)).2.2.2.1 (by decide),
    (flush_policy (addData (AsyncBulkCommandManager.create 2 ['0'])
      "a\n\x7b\nb\nc\n".toList)).2.2.2.2 (by decide) (by decide),
    by decide, by decide⟩

/-- C5, as stated, fails when the last token itself submits a block. Static size 3, input
`"a\n{"`: the carried-over `{` makes flush submit `[a]` and open a dynamic block, so the
context is inside a dynamic block after the last token and yet flush and the destruction
have submitted a block. Static size 5, input `"{\na\n{\nb\n}"`: the context is inside a
dynamic block before and after flush, and the carried-over inner `}` makes flush submit
`[a, b]` (the emission at a nested `}` of C1). -/
theorem flush_last_token_emits :
    ((addData (AsyncBulkCommandManager.create 3 ['0']) "a\n\x7b".toList).buffer = ['\x7b'] ∧
      bulks (addData (AsyncBulkCommandManager.create 3 ['0']) "a\n\x7b".toList) = [] ∧
      (flush (addData (AsyncBulkCommandManager.create 3 ['0'])
        "a\n\x7b".toList)).inDynamicBlock = true ∧
      bulks (flush (addData (AsyncBulkCommandManager.create 3 ['0']) "a\n\x7b".toList)) =
        [[['a']]] ∧
      bulks (destroyContext (addData (AsyncBulkCommandManager.create 3 ['0'])
        "a\n\x7b".toList)) = [[['a']]]) ∧
    ((addData (AsyncBulkCommandManager.create 5 ['0'])
        "\x7b\na\n\x7b\nb\n\x7d".toList).inDynamicBlock = true ∧
      bulks (addData (AsyncBulkCommandManager.create 5 ['0'])
        "\x7b\na\n\x7b\nb\n\x7d".toList) = [] ∧
      (flush (addData (AsyncBulkCommandManager.create 5 ['0'])
        "\x7b\na\n\x7b\nb\n\x7d".toList)).inDynamicBlock = true ∧
      bulks (flush (addData (AsyncBulkCommandManager.create 5 ['0'])
        "\x7b\na\n\x7b\nb\n\x7d".toList)) = [[['a'], ['b']]] ∧
      bulks (destroyContext (addData (AsyncBulkCommandManager.create 5 ['0'])
        "\x7b\na\n\x7b\nb\n\x7d".toList)) = [[['a'], ['b']]]) := by
  decide

/-! ## Invariants of a context -/

theorem scanLines_invariant (Inv : AsyncBulkCommandManager → Prop)
    (hpc : ∀ st c, Inv st → Inv (processCommand st c)) (x : Str) :
    ∀ (st : AsyncBulkCommandManager) (cur : Str), Inv st → Inv (scanLines st cur x).1 := by
  induction x with
  | nil => intro st cur h; exact h
  | cons c cs ih =>
    intro st cur h
    simp only [scanLines]
    split
    · exact ih _ _ (hpc _ _ h)
    · exact ih _ _ h

/-- A property of the state that survives a change of `buffer`, `processBlock` and
`processCommand` survives every sequence of calls. -/
theorem runCalls_invariant (Inv : AsyncBulkCommandManager → Prop)
    (hbuf : ∀ st b, Inv st → Inv { st with buffer := b })
    (hpb : ∀ st, Inv st → Inv (processBlock st))
    (hpc : ∀ st c, Inv st → Inv (processCommand st c)) (calls : List Call) :
    ∀ (st : AsyncBulkCommandManager), Inv st → Inv (runCalls st calls) := by
  induction calls with
  | nil => intro st h; exact h
  | cons c cs ih =>
    intro st h
    simp only [runCalls, List.foldl_cons]
    apply ih
    cases c with
    | addData data =>
      simp only [Call.run, addData]
      split
      · exact h
      · exact hbuf _ _ (scanLines_invariant Inv hpc _ _ _ (hbuf _ _ h))
    | processCommand command => exact hpc _ _ h
    | flush =>
      simp only [Call.run, flush_eq, flushPending]
      have hd : Inv (drainBuffer st) := by
        unfold drainBuffer
        split
        · exact hbuf _ _ (hpc _ _ h)
        · exact h
      split
      · exact hpb _ hd
      · exact hd

theorem processTrimmed_invariant (Inv : AsyncBulkCommandManager → Prop)
    (hpb : ∀ st, Inv st → Inv (processBlock st))
    (hopen : ∀ st, Inv st → Inv { st with
      dynamicBlockSizes := st.blockSize :: st.dynamicBlockSizes, blockSize := 0 })
    (hclose : ∀ st top rest, Inv st → st.dynamicBlockSizes = top :: rest →
      Inv { st with blockSize := top, dynamicBlockSizes := rest })
    (hdyn : ∀ st b, Inv st → Inv { st with inDynamicBlock := b })
    (st : AsyncBulkCommandManager) (c : Str) (h : Inv st)
    (hcmd : c ≠ lbrace → c ≠ rbrace →
      Inv { st with currentCommands := st.currentCommands ++ [c] }) :
    Inv (processTrimmed st c) := by
  by_cases h1 : c = lbrace
  · subst h1
    by_cases hd : st.inDynamicBlock = true
    · have : processTrimmed st lbrace = { st with
          dynamicBlockSizes := st.blockSize :: st.dynamicBlockSizes, blockSize := 0 } := by
        simp [processTrimmed, lbrace, hd]
      rw [this]
      exact hopen _ h
    · have hd2 : st.inDynamicBlock = false := by simpa using hd
      have : processTrimmed st lbrace = { processBlock st with
          dynamicBlockSizes := (processBlock st).blockSize :: (processBlock st).dynamicBlockSizes
          blockSize := 0
          inDynamicBlock := true } := by
        simp [processTrimmed, lbrace, hd2]
      rw [this]
      exact hdyn _ true (hopen _ (hpb _ h))
  · by_cases h2 : c = rbrace
    · subst h2
      by_cases hd : st.inDynamicBlock = true
      · cases hs : (processBlock st).dynamicBlockSizes with
        | nil =>
          have : processTrimmed st rbrace = { processBlock st with inDynamicBlock := false } := by
            simp [processTrimmed, lbrace, rbrace, hd, hs]
          rw [this]
          exact hdyn _ _ (hpb _ h)
        | cons top rest =>
          have : processTrimmed st rbrace = { processBlock st with
              blockSize := top, dynamicBlockSizes := rest, inDynamicBlock := !rest.isEmpty } := by
            simp [processTrimmed, lbrace, rbrace, hd, hs]
          rw [this]
          exact hdyn _ _ (hclose _ top rest (hpb _ h) hs)
      · have hd2 : st.inDynamicBlock = false := by simpa using hd
        have : processTrimmed st rbrace = st := by
          simp [processTrimmed, lbrace, rbrace, hd2]
        rw [this]
        exact h
    · rw [processTrimmed_command st c h1 h2]
      split
      · exact hpb _ (hcmd h1 h2)
      · exact hcmd h1 h2

/-! ## Sequence numbers -/

theorem wrapInt32_succ (x : Int) : wrapInt32 (wrapInt32 x + 1) = wrapInt32 (x + 1) := by
  unfold wrapInt32
  omega

theorem wrapInt32_small (k : Nat) (hk : k < 2147483648) : wrapInt32 (k : Int) = (k : Int) := by
  unfold wrapInt32
  omega

theorem Numbered_processBlock (st : AsyncBulkCommandManager) (h : Numbered st) :
    Numbered (processBlock st) := by
  unfold processBlock
  split
  · exact h
  · obtain ⟨h1, h2⟩ := h
    constructor
    · simp only [List.map_append, List.map_cons, List.map_nil, List.length_append,
        List.length_singleton, List.range_succ, h1, h2]
    · simp only [List.length_append, List.length_singleton, h2, wrapInt32_succ]
      rfl

theorem Numbered_processCommand (st : AsyncBulkCommandManager) (c : Str) (h : Numbered st) :
    Numbered (processCommand st c) := by
  rw [processCommand_eq]
  split
  · exact h
  · exact processTrimmed_invariant Numbered Numbered_processBlock (fun _ h => h)
      (fun _ _ _ h _ => h) (fun _ _ h => h) st _ h (fun _ _ => h)

theorem Numbered_runCalls (N : Nat) (id : Str) (calls : List Call) :
    Numbered (runCalls (AsyncBulkCommandManager.create N id) calls) :=
  runCalls_invariant Numbered (fun _ _ h => h) Numbered_processBlock Numbered_processCommand
    calls _ ⟨rfl, by simp [AsyncBulkCommandManager.create, wrapInt32]⟩

/-- C7, amended: after every sequence of calls on a fresh context the `k`-th submitted block
carries the number `k` reduced to a 32-bit `int`, and the counter is the number of submitted
blocks reduced in the same way, so that a call that submits nothing uses no number. In
particular the first `2^31` blocks carry the numbers `0, 1, 2, …` in submission order, without
gap or repeat. -/
theorem sequence_numbers (N : Nat) (id : Str) (calls : List Call) :
    (runCalls (AsyncBulkCommandManager.create N id) calls).submitted.map (·.block_number) =
      (List.range (runCalls (AsyncBulkCommandManager.create N id) calls).submitted.length).map
        (fun (k : Nat) => wrapInt32 (k : Int)) ∧
    (runCalls (AsyncBulkCommandManager.create N id) calls).block_counter =
      wrapInt32 (runCalls (AsyncBulkCommandManager.create N id) calls).submitted.length ∧
    (∀ k, k < (runCalls (AsyncBulkCommandManager.create N id) calls).submitted.length →
      k < 2147483648 →
      ((runCalls (AsyncBulkCommandManager.create N id) calls).submitted.map
        (·.block_number))[k]? = some (k : Int)) := by
  obtain ⟨h1, h2⟩ := Numbered_runCalls N id calls
  refine ⟨h1, h2, ?_⟩
  intro k hk hk2
  rw [h1, List.getElem?_map, List.getElem?_range hk]
  simp only [Option.map_some', wrapInt32_small k hk2]

/-- Scenario D as calls: four blocks, numbered 0, 1, 2, 3; the block at index 2 carries 2. -/
theorem sequence_numbers_witness :
    (2 < (runCalls (AsyncBulkCommandManager.create 5 ['0'])
        [Call.addData "1".toList, Call.addData "\n2\n3\n4\n5\n6\n\x7b\na\n".toList,
          Call.addData "b\nc\nd\n\x7d\n89\n".toList, Call.flush]).submitted.length ∧
      ((runCalls (AsyncBulkCommandManager.create 5 ['0'])
        [Call.addData "1".toList, Call.addData "\n2\n3\n4\n5\n6\n\x7b\na\n".toList,
          Call.addData "b\nc\nd\n\x7d\n89\n".toList, Call.flush]).submitted.map
        (·.block_number))[2]? = some ((2 : Nat) : Int)) ∧
    (runCalls (AsyncBulkCommandManager.create 5 ['0'])
        [Call.addData "1".toList, Call.addData "\n2\n3\n4\n5\n6\n\x7b\na\n".toList,
          Call.addData "b\nc\nd\n\x7d\n89\n".toList, Call.flush]).submitted.map
        (·.block_number) = [0, 1, 2, 3] :=
  ⟨⟨by decide,
      (sequence_numbers 5 ['0']
        [Call.addData "1".toList, Call.addData "\n2\n3\n4\n5\n6\n\x7b\na\n".toList,
          Call.addData "b\nc\nd\n\x7d\n89\n".toList, Call.flush]).2.2 2 (by decide)
        (by decide)⟩,
    by decide⟩

theorem single_command_static_one (st : AsyncBulkCommandManager)
    (h1 : st.inDynamicBlock = false) (h2 : st.blockSize = 1) (h3 : st.currentCommands = []) :
    (processCommand st ['a']).inDynamicBlock = false ∧
    (processCommand st ['a']).blockSize = 1 ∧
    (processCommand st ['a']).currentCommands = [] ∧
    (processCommand st ['a']).submitted.length = st.submitted.length + 1 := by
  obtain ⟨bs, cc, d, i, b0, id, n, su⟩ := st
  simp only at h1 h2 h3
  subst h1 h2 h3
  have ht : trim ['a'] = ['a'] := by decide
  rw [processCommand_eq, ht]
  simp [processTrimmed, processBlock]

theorem repeated_command_static_one (n : Nat) :
    ∀ (st : AsyncBulkCommandManager), st.inDynamicBlock = false → st.blockSize = 1 →
      st.currentCommands = [] →
      (runCalls st (List.replicate n (Call.processCommand ['a']))).submitted.length =
        st.submitted.length + n := by
  induction n with
  | zero => intro st _ _ _; rfl
  | succ n ih =>
    intro st h1 h2 h3
    obtain ⟨g1, g2, g3, g4⟩ := single_command_static_one st h1 h2 h3
    rw [List.replicate_succ]
    show (runCalls (processCommand st ['a']) (List.replicate n (Call.processCommand ['a']))
      ).submitted.length = _
    rw [ih _ g1 g2 g3, g4]
    omega

/-- C7, as stated, fails past the range of `int`: with static size 1 every command is
submitted as one block, and after `2^31 + 1` commands the last block, the one at index
`2^31`, carries the number `-2^31` instead of `2^31`. -/
theorem sequence_number_wraps :
    (runCalls (AsyncBulkCommandManager.create 1 ['0'])
        (List.replicate 2147483649 (Call.processCommand ['a']))).submitted.length
      = 2147483649 ∧
    ((runCalls (AsyncBulkCommandManager.create 1 ['0'])
        (List.replicate 2147483649 (Call.processCommand ['a']))).submitted.map
        (·.block_number))[2147483648]? = some (-2147483648) := by
  have hlen := repeated_command_static_one 2147483649
    (AsyncBulkCommandManager.create 1 ['0']) rfl rfl rfl
  have hl : (runCalls (AsyncBulkCommandManager.create 1 ['0'])
      (List.replicate 2147483649 (Call.processCommand ['a']))).submitted.length
        = 2147483649 := by
    rw [hlen]
    rfl
  refine ⟨hl, ?_⟩
  rw [(Numbered_runCalls 1 ['0'] _).1, hl, List.getElem?_map,
    List.getElem?_range (by omega)]
  norm_num [wrapInt32]

/-! ## Content of the blocks -/

theorem goodCommand_trim (raw : Str) (h0 : (trim raw).isEmpty = false) (h1 : trim raw ≠ lbrace)
    (h2 : trim raw ≠ rbrace) : goodCommand (trim raw) :=
  ⟨by simpa using h0, trim_head raw, trim_getLast raw, h1, h2⟩

theorem WellFormed_processBlock (st : AsyncBulkCommandManager) (h : WellFormed st) :
    WellFormed (processBlock st) := by
  unfold processBlock
  split
  · exact h
  · rename_i hne
    obtain ⟨h1, h2⟩ := h
    refine ⟨by simp, ?_⟩
    intro b hb
    simp only [List.mem_append, List.mem_singleton] at hb
    rcases hb with hb | hb
    · exact h2 b hb
    · subst hb
      exact ⟨by simpa using hne, h1⟩

theorem WellFormed_processCommand (st : AsyncBulkCommandManager) (c : Str) (h : WellFormed st) :
    WellFormed (processCommand st c) := by
  rw [processCommand_eq]
  split
  · exact h
  · rename_i hne
    refine processTrimmed_invariant WellFormed WellFormed_processBlock (fun _ h => h)
      (fun _ _ _ h _ => h) (fun _ _ h => h) st _ h ?_
    intro h1 h2
    refine ⟨?_, h.2⟩
    intro x hx
    simp only [List.mem_append, List.mem_singleton] at hx
    rcases hx with hx | hx
    · exact h.1 x hx
    · subst hx
      exact goodCommand_trim c (by simpa using hne) h1 h2

/-- C8: every block submitted by any sequence of calls on a fresh context has a non-empty
list of commands, and each of its commands is non-empty, has no space, tab, CR or LF at
either end, and is neither `{` nor `}`. -/
theorem bulks_well_formed (N : Nat) (id : Str) (calls : List Call) :
    ∀ b ∈ (runCalls (AsyncBulkCommandManager.create N id) calls).submitted,
      b.commands ≠ [] ∧
      ∀ c ∈ b.commands, c ≠ [] ∧ (∀ x, c.head? = some x → isWs x = false) ∧
        (∀ x, c.getLast? = some x → isWs x = false) ∧ c ≠ lbrace ∧ c ≠ rbrace :=
  (runCalls_invariant WellFormed (fun _ _ h => h) WellFormed_processBlock
    WellFormed_processCommand calls _
    ⟨by simp [AsyncBulkCommandManager.create], by simp [AsyncBulkCommandManager.create]⟩).2

/-- An input with padded, empty and white-space-only lines: the one block is `[x, y]`. -/
theorem bulks_well_formed_witness :
    (⟨[['x'], ['y']], ['0'], 0⟩ : CommandBlock) ∈
      (runCalls (AsyncBulkCommandManager.create 2 ['0'])
        [Call.addData " x \n\t\r\n\ny\r".toList, Call.flush]).submitted ∧
    ((⟨[['x'], ['y']], ['0'], 0⟩ : CommandBlock).commands ≠ [] ∧
      ∀ c ∈ (⟨[['x'], ['y']], ['0'], 0⟩ : CommandBlock).commands,
        c ≠ [] ∧ (∀ x, c.head? = some x → isWs x = false) ∧
        (∀ x, c.getLast? = some x → isWs x = false) ∧ c ≠ lbrace ∧ c ≠ rbrace) :=
  ⟨by decide,
    bulks_well_formed 2 ['0'] [Call.addData " x \n\t\r\n\ny\r".toList, Call.flush] _
      (by decide)⟩

/-! ## Static size 0 -/

theorem ZeroSized_processBlock (st : AsyncBulkCommandManager) (h : ZeroSized st) :
    ZeroSized (processBlock st) := by
  unfold ZeroSized
  rw [processBlock_blockSize, processBlock_dynamicBlockSizes]
  exact h

theorem ZeroSized_processCommand (st : AsyncBulkCommandManager) (c : Str) (h : ZeroSized st) :
    ZeroSized (processCommand st c) := by
  rw [processCommand_eq]
  split
  · exact h
  · refine processTrimmed_invariant ZeroSized ZeroSized_processBlock ?_ ?_ (fun _ _ h => h)
      st _ h (fun _ _ => h)
    · intro st h
      refine ⟨rfl, ?_⟩
      intro x hx
      simp only [List.mem_cons] at hx
      rcases hx with hx | hx
      · rw [hx]; exact h.1
      · exact h.2 x hx
    · intro st top rest h hs
      refine ⟨h.2 top (by rw [hs]; simp), ?_⟩
      intro x hx
      exact h.2 x (by rw [hs]; simp [hx])

theorem ZeroSized_command (st : AsyncBulkCommandManager) (raw : Str) (h : ZeroSized st)
    (h1 : trim raw ≠ lbrace) (h2 : trim raw ≠ rbrace) :
    (processCommand st raw).submitted = st.submitted := by
  rw [processCommand_eq]
  split
  · rfl
  · rw [processTrimmed_command st _ h1 h2]
    simp [h.1]

theorem ZeroSized_lines (ls : List Str) (hl : ∀ l ∈ ls, trim l ≠ lbrace ∧ trim l ≠ rbrace) :
    ∀ (st : AsyncBulkCommandManager), ZeroSized st →
      (ls.foldl processCommand st).submitted = st.submitted := by
  induction ls with
  | nil => intro st _; rfl
  | cons l ls ih =>
    intro st h
    have h1 := hl l (by simp)
    rw [List.foldl_cons, ih (fun x hx => hl x (by simp [hx])) _ (ZeroSized_processCommand st l h),
      ZeroSized_command st l h h1.1 h1.2]

/-- C10, amended: in a context connected with static size 0, whatever calls came before, a
token that is not `{` or `}` never makes `processCommand` submit a block, and an `addData`
call in which no processed line is `{` or `}` submits no block: during ingestion blocks
are submitted only while a `{` or `}` token is processed. -/
theorem static_zero_commands (id : Str) (calls : List Call) :
    (∀ raw, trim raw ≠ lbrace → trim raw ≠ rbrace →
      (processCommand (runCalls (AsyncBulkCommandManager.create 0 id) calls) raw).submitted =
        (runCalls (AsyncBulkCommandManager.create 0 id) calls).submitted) ∧
    (∀ data,
      (∀ l ∈ (splitNL ((runCalls (AsyncBulkCommandManager.create 0 id) calls).buffer ++ data)).1,
        trim l ≠ lbrace ∧ trim l ≠ rbrace) →
      (addData (runCalls (AsyncBulkCommandManager.create 0 id) calls) data).submitted =
        (runCalls (AsyncBulkCommandManager.create 0 id) calls).submitted) := by
  have hz : ZeroSized (runCalls (AsyncBulkCommandManager.create 0 id) calls) :=
    runCalls_invariant ZeroSized (fun _ _ h => h) ZeroSized_processBlock ZeroSized_processCommand
      calls _ ⟨rfl, by simp [AsyncBulkCommandManager.create]⟩
  generalize runCalls (AsyncBulkCommandManager.create 0 id) calls = st at hz
  refine ⟨fun raw h1 h2 => ZeroSized_command st raw hz h1 h2, ?_⟩
  intro data hl
  unfold addData
  split
  · rfl
  · simp only
    rw [scanLines_eq _ _ [] (by simp)]
    simp only [List.nil_append]
    exact ZeroSized_lines _ hl { st with buffer := st.buffer ++ data } hz

/-- With static size 0, seven commands are ingested without any block being submitted. -/
theorem static_zero_commands_witness :
    (trim ['c'] ≠ lbrace ∧ trim ['c'] ≠ rbrace ∧
      (processCommand (runCalls (AsyncBulkCommandManager.create 0 ['0'])
          [Call.addData "a\nb\n".toList]) ['c']).submitted =
        (runCalls (AsyncBulkCommandManager.create 0 ['0'])
          [Call.addData "a\nb\n".toList]).submitted) ∧
    (addData (runCalls (AsyncBulkCommandManager.create 0 ['0'])
        [Call.addData "a\nb\n".toList]) "d\ne\nf\ng\nh\n".toList).submitted =
      (runCalls (AsyncBulkCommandManager.create 0 ['0'])
        [Call.addData "a\nb\n".toList]).submitted :=
  ⟨⟨by decide, by decide,
      (static_zero_commands ['0'] [Call.addData "a\nb\n".toList]).1 ['c'] (by decide)
        (by decide)⟩,
    (static_zero_commands ['0'] [Call.addData "a\nb\n".toList]).2 "d\ne\nf\ng\nh\n".toList
      (by decide)⟩

/-- C10, as stated, fails on flush: with static size 0 the input `"a\nb\n"` has no `{` or `}`
token and submits nothing while ingested, yet the flush that follows submits `[a, b]`. -/
theorem static_zero_flush_emits :
    tokens "a\nb\n".toList = [['a'], ['b']] ∧
    bulks (addData (AsyncBulkCommandManager.create 0 ['0']) "a\nb\n".toList) = [] ∧
    bulks (flush (addData (AsyncBulkCommandManager.create 0 ['0']) "a\nb\n".toList)) =
      [[['a'], ['b']]] := by
  decide

/-! ## File names -/

theorem digitChar_ne_underscore (k : Nat) (hk : k < 10) : Nat.digitChar k ≠ '_' := by
  interval_cases k <;> decide

theorem digitChar_value (k : Nat) (hk : k < 10) : (Nat.digitChar k).toNat - 48 = k := by
  interval_cases k <;> rfl

theorem toDigitsCore_no_underscore (fuel : Nat) :
    ∀ (n : Nat) (ds : List Char), '_' ∉ ds → '_' ∉ Nat.toDigitsCore 10 fuel n ds := by
  induction fuel with
  | zero => intro n ds h; simpa [Nat.toDigitsCore] using h
  | succ fuel ih =>
    intro n ds h
    have hd : '_' ∉ Nat.digitChar (n % 10) :: ds := by
      simp only [List.mem_cons, not_or]
      exact ⟨fun h0 => digitChar_ne_underscore _ (Nat.mod_lt _ (by decide)) h0.symm, h⟩
    simp only [Nat.toDigitsCore]
    split
    · exact hd
    · exact ih _ _ hd

theorem toDigitsCore_value (fuel : Nat) :
    ∀ (n : Nat) (ds : List Char), n < fuel →
      List.foldl (fun a c => a * 10 + (c.toNat - 48)) 0 (Nat.toDigitsCore 10 fuel n ds) =
        List.foldl (fun a c => a * 10 + (c.toNat - 48)) n ds := by
  induction fuel with
  | zero => intro n ds h; omega
  | succ fuel ih =>
    intro n ds h
    simp only [Nat.toDigitsCore]
    split
    · rename_i h0
      have hn : n % 10 = n := by omega
      have hv := digitChar_value (n % 10) (Nat.mod_lt _ (by decide))
      rw [hn] at hv
      simp only [List.foldl_cons, Nat.zero_mul, Nat.zero_add, hn, hv]
    · rename_i h0
      rw [ih (n / 10) _ (by omega)]
      simp only [List.foldl_cons, digitChar_value (n % 10) (Nat.mod_lt _ (by decide))]
      congr 1
      omega

theorem decimal_no_underscore (n : Nat) : '_' ∉ decimal n :=
  toDigitsCore_no_underscore _ _ _ (by simp)

theorem decimalValue_decimal (n : Nat) : decimalValue (decimal n) = n := by
  unfold decimalValue decimal Nat.toDigits
  rw [toDigitsCore_value (n + 1) n [] (Nat.lt_succ_self n)]
  rfl

theorem decimalValue_zeros (k : Nat) (s : Str) :
    decimalValue (List.replicate k '0' ++ s) = decimalValue s := by
  induction k with
  | zero => rfl
  | succ k ih =>
    unfold decimalValue at ih ⊢
    simp only [List.replicate_succ, List.cons_append, List.foldl_cons]
    exact ih

theorem pad6_no_underscore (n : Nat) : '_' ∉ pad6 n := by
  unfold pad6
  simp only [List.mem_append, List.mem_replicate, not_or]
  exact ⟨fun h => by simp at h, decimal_no_underscore n⟩

theorem decimalValue_pad6 (n : Nat) : decimalValue (pad6 n) = n := by
  unfold pad6
  rw [decimalValue_zeros, decimalValue_decimal]

theorem decimal_injective {n m : Nat} (h : decimal n = decimal m) : n = m := by
  rw [← decimalValue_decimal n, ← decimalValue_decimal m, h]

theorem pad6_injective {n m : Nat} (h : pad6 n = pad6 m) : n = m := by
  rw [← decimalValue_pad6 n, ← decimalValue_pad6 m, h]

/-- Two fields that end at the first underscore: equal texts have equal fields. -/
theorem field_split (a : Str) : ∀ (a2 r r2 : Str), '_' ∉ a → '_' ∉ a2 →
    a ++ '_' :: r = a2 ++ '_' :: r2 → a = a2 ∧ r = r2 := by
  induction a with
  | nil =>
    intro a2 r r2 _ h2 h
    cases a2 with
    | nil => simpa using h
    | cons x xs =>
      simp only [List.nil_append, List.cons_append, List.cons.injEq] at h
      exact absurd (by rw [← h.1]; simp) h2
  | cons y ys ih =>
    intro a2 r r2 h1 h2 h
    cases a2 with
    | nil =>
      simp only [List.nil_append, List.cons_append, List.cons.injEq] at h
      exact absurd (by rw [h.1]; simp) h1
    | cons x xs =>
      simp only [List.cons_append, List.cons.injEq] at h
      obtain ⟨g1, g2⟩ := ih xs r r2 (fun h0 => h1 (by simp [h0])) (fun h0 => h2 (by simp [h0])) h.2
      exact ⟨by rw [h.1, g1], g2⟩

theorem fileName_eq (t : Nat) (c : Str) (b i f : Nat) :
    fileName t c b i f =
      ['b', 'u', 'l', 'k'] ++ (decimal (t / 1000000) ++ '_' :: (pad6 (t % 1000000) ++ '_' ::
        (c ++ '_' :: (decimal b ++ '_' :: (decimal i ++ '_' :: (pad6 f ++ ".log".toList)))))) := by
  simp [fileName]

theorem fileName_fields (t1 t2 : Nat) (c1 c2 : Str) (b1 b2 i1 i2 f1 f2 : Nat)
    (h1 : '_' ∉ c1) (h2 : '_' ∉ c2)
    (h : fileName t1 c1 b1 i1 f1 = fileName t2 c2 b2 i2 f2) :
    c1 = c2 ∧ b1 = b2 ∧ i1 = i2 ∧ f1 = f2 := by
  rw [fileName_eq, fileName_eq] at h
  have h := List.append_cancel_left h
  obtain ⟨_, h⟩ := field_split _ _ _ _ (decimal_no_underscore _) (decimal_no_underscore _) h
  obtain ⟨_, h⟩ := field_split _ _ _ _ (pad6_no_underscore _) (pad6_no_underscore _) h
  obtain ⟨hc, h⟩ := field_split _ _ _ _ h1 h2 h
  obtain ⟨hb, h⟩ := field_split _ _ _ _ (decimal_no_underscore _) (decimal_no_underscore _) h
  obtain ⟨hi, h⟩ := field_split _ _ _ _ (decimal_no_underscore _) (decimal_no_underscore _) h
  exact ⟨hc, decimal_injective hb, decimal_injective hi,
    pad6_injective (List.append_cancel_right h)⟩

/-- C9: the file name is injective in (context id, sequence number, thread index, local
counter), whatever the two time stamps: if the context ids are decimal strings and the two
tuples differ in some component, the two names differ. -/
theorem fileName_injective (t1 t2 : Nat) (c1 c2 : Str) (b1 b2 i1 i2 f1 f2 : Nat)
    (h1 : ∀ x ∈ c1, x.isDigit = true) (h2 : ∀ x ∈ c2, x.isDigit = true)
    (h : (c1, b1, i1, f1) ≠ (c2, b2, i2, f2)) :
    fileName t1 c1 b1 i1 f1 ≠ fileName t2 c2 b2 i2 f2 := by
  intro he
  have hu : ∀ c : Str, (∀ x ∈ c, x.isDigit = true) → '_' ∉ c := by
    intro c hc hm
    exact absurd (hc _ hm) (by decide)
  obtain ⟨g1, g2, g3, g4⟩ := fileName_fields t1 t2 c1 c2 b1 b2 i1 i2 f1 f2 (hu c1 h1) (hu c2 h2) he
  exact h (by rw [g1, g2, g3, g4])

/-- Two blocks with the same time stamp, written by the two file threads with the same
counter value. -/
theorem fileName_injective_witness :
    fileName 1700000000000123 ['7'] 3 1 15 ≠ fileName 1700000000000123 ['7'] 3 2 15 ∧
    fileName 1700000000000123 ['7'] 3 2 15 = "bulk1700000000_000123_7_3_2_000015.log".toList :=
  ⟨fileName_injective 1700000000000123 1700000000000123 ['7'] ['7'] 3 3 1 2 15 15 (by decide)
      (by decide) (by decide), by decide⟩

/-! ## Dispatcher -/

theorem handled_handle (h : FileOutputHandler) (block : CommandBlock) (created : Bool)
    (hb : block.commands ≠ []) : (h.handle block created).handled.Perm (block :: h.handled) := by
  unfold FileOutputHandler.handle FileOutputHandler.handled
  cases created
  · simp only [hb, List.isEmpty_eq_true, ↓reduceIte, Bool.not_false, List.map_append,
      List.map_cons, List.map_nil]
    rw [← List.append_assoc]
    exact List.perm_append_singleton _ _
  · simp only [hb, List.isEmpty_eq_true, ↓reduceIte, Bool.not_true, Bool.false_eq_true,
      List.map_append, List.map_cons, List.map_nil]
    rw [List.append_assoc, List.singleton_append]
    exact List.perm_middle

theorem Accounted_run (tm : ThreadManager) (sub : List CommandBlock) (e : Event)
    (h : Accounted tm sub) (hne : ∀ b ∈ sub, b.commands ≠ []) :
    Accounted (e.run tm) (sub ++ submittedBlocks [e]) := by
  obtain ⟨h1, h2⟩ := h
  cases e with
  | submit block =>
    refine ⟨?_, ?_⟩
    · simp [Event.run, submitBlock, submittedBlocks, ← h1]
    · intro b
      have := h2 b
      simp only [Event.run, submitBlock, submittedBlocks, List.count_append]
      omega
  | console_take =>
    simp only [submittedBlocks, List.append_nil, Event.run, console_worker_take]
    cases hb : tm.console_block with
    | some x => exact ⟨by simpa [hb] using h1, h2⟩
    | none =>
      cases hq : tm.console_queue with
      | nil => exact ⟨by simpa [hb, hq] using h1, h2⟩
      | cons block rest => exact ⟨by simpa [hb, hq] using h1, h2⟩
  | console_handle =>
    simp only [submittedBlocks, List.append_nil, Event.run, console_worker_handle]
    cases hb : tm.console_block with
    | none => exact ⟨by simpa [hb] using h1, h2⟩
    | some block =>
      have hc : block.commands ≠ [] := hne block (by rw [← h1, hb]; simp)
      refine ⟨?_, h2⟩
      simpa [ConsoleOutputHandler.handle, hc, hb] using h1
  | file_take first =>
    simp only [submittedBlocks, List.append_nil, Event.run, file_worker_take]
    cases first with
    | true =>
      simp only [↓reduceIte]
      cases hb : tm.file_block1 with
      | some x => exact ⟨h1, h2⟩
      | none =>
        cases hq : tm.file_queue with
        | nil => exact ⟨h1, h2⟩
        | cons block rest =>
          refine ⟨h1, ?_⟩
          intro b
          have := h2 b
          rw [hb, hq] at this
          simp only [Option.toList, List.count_cons, List.count_nil] at this ⊢
          omega
    | false =>
      simp only [Bool.false_eq_true, ↓reduceIte]
      cases hb : tm.file_block2 with
      | some x => exact ⟨h1, h2⟩
      | none =>
        cases hq : tm.file_queue with
        | nil => exact ⟨h1, h2⟩
        | cons block rest =>
          refine ⟨h1, ?_⟩
          intro b
          have := h2 b
          rw [hb, hq] at this
          simp only [Option.toList, List.count_cons, List.count_nil] at this ⊢
          omega
  | file_handle first created =>
    simp only [submittedBlocks, List.append_nil, Event.run, file_worker_handle]
    cases first with
    | true =>
      simp only [↓reduceIte]
      cases hb : tm.file_block1 with
      | none => exact ⟨h1, h2⟩
      | some block =>
        have hmem : block ∈ sub := by
          have := h2 block
          rw [hb] at this
          simp only [Option.toList, List.count_cons_self] at this
          exact List.count_pos_iff.mp (by omega)
        have hp := (handled_handle tm.file_handler1 block created (hne block hmem))
        refine ⟨h1, ?_⟩
        intro b
        have := h2 b
        rw [hb] at this
        have hcnt := hp.count_eq b
        simp only [Option.toList, List.count_cons, List.count_nil] at this hcnt ⊢
        omega
    | false =>
      simp only [Bool.false_eq_true, ↓reduceIte]
      cases hb : tm.file_block2 with
      | none => exact ⟨h1, h2⟩
      | some block =>
        have hmem : block ∈ sub := by
          have := h2 block
          rw [hb] at this
          simp only [Option.toList, List.count_cons_self] at this
          exact List.count_pos_iff.mp (by omega)
        have hp := (handled_handle tm.file_handler2 block created (hne block hmem))
        refine ⟨h1, ?_⟩
        intro b
        have := h2 b
        rw [hb] at this
        have hcnt := hp.count_eq b
        simp only [Option.toList, List.count_cons, List.count_nil] at this hcnt ⊢
        omega

theorem submittedBlocks_cons (e : Event) (es : List Event) :
    submittedBlocks (e :: es) = submittedBlocks [e] ++ submittedBlocks es := by
  cases e <;> simp [submittedBlocks]

theorem Accounted_runEvents (events : List Event) :
    ∀ (tm : ThreadManager) (sub : List CommandBlock), Accounted tm sub →
      (∀ b ∈ sub ++ submittedBlocks events, b.commands ≠ []) →
      Accounted (runEvents tm events) (sub ++ submittedBlocks events) := by
  induction events with
  | nil => intro tm sub h _; simpa [runEvents, submittedBlocks] using h
  | cons e es ih =>
    intro tm sub h hne
    rw [submittedBlocks_cons, ← List.append_assoc] at hne ⊢
    simp only [runEvents, List.foldl_cons]
    exact ih _ _ (Accounted_run tm sub e h (fun b hb => hne b (by simp [hb]))) hne

theorem failed_handle (h : FileOutputHandler) (block : CommandBlock)
    (hf : h.failed = []) : (h.handle block true).failed = [] := by
  unfold FileOutputHandler.handle
  split <;> simp [hf]

theorem failed_runEvents (events : List Event) :
    ∀ (tm : ThreadManager), allCreated events = true → tm.file_handler1.failed = [] →
      tm.file_handler2.failed = [] →
      (runEvents tm events).file_handler1.failed = [] ∧
        (runEvents tm events).file_handler2.failed = [] := by
  induction events with
  | nil => intro tm _ h1 h2; exact ⟨h1, h2⟩
  | cons e es ih =>
    intro tm ha h1 h2
    simp only [runEvents, List.foldl_cons]
    cases e with
    | submit block => exact ih _ (by simpa [allCreated] using ha) h1 h2
    | console_take =>
      refine ih _ (by simpa [allCreated] using ha) ?_ ?_
      · simp only [Event.run, console_worker_take]; split <;> exact h1
      · simp only [Event.run, console_worker_take]; split <;> exact h2
    | console_handle =>
      refine ih _ (by simpa [allCreated] using ha) ?_ ?_
      · simp only [Event.run, console_worker_handle]; split <;> exact h1
      · simp only [Event.run, console_worker_handle]; split <;> exact h2
    | file_take first =>
      refine ih _ (by simpa [allCreated] using ha) ?_ ?_
      · simp only [Event.run, file_worker_take]; (repeat' split) <;> exact h1
      · simp only [Event.run, file_worker_take]; (repeat' split) <;> exact h2
    | file_handle first created =>
      simp only [allCreated, Bool.and_eq_true] at ha
      obtain ⟨hc, ha⟩ := ha
      subst hc
      refine ih _ ha ?_ ?_
      · simp only [Event.run, file_worker_handle]
        (repeat' split) <;> first | exact h1 | exact failed_handle _ _ h1
      · simp only [Event.run, file_worker_handle]
        (repeat' split) <;> first | exact h2 | exact failed_handle _ _ h2

/-- C6, amended: `submitBlock` appends the block to the console queue and once to the one
file queue that both file threads read. In every interleaving of submissions (of blocks with
commands, the only ones a context submits) and worker steps that starts from a new
dispatcher and ends with both queues empty and no worker thread holding a block, the console
sink has printed the submitted blocks in order, and the blocks handled by the two file sinks
together are the submitted blocks, each once: every block is handled by exactly one of the
two file sinks. That sink writes one file for it, or none when the file cannot be created;
when every creation succeeds the blocks written by the two sinks together are the submitted
blocks, each once. -/
theorem dispatch_drained (events : List Event)
    (hne : ∀ b ∈ submittedBlocks events, b.commands ≠ [])
    (hc : (runEvents ThreadManager.create events).console_queue = [])
    (hf : (runEvents ThreadManager.create events).file_queue = [])
    (hi : (runEvents ThreadManager.create events).console_block = none ∧
      (runEvents ThreadManager.create events).file_block1 = none ∧
      (runEvents ThreadManager.create events).file_block2 = none) :
    (∀ tm block, (submitBlock tm block).console_queue = tm.console_queue ++ [block] ∧
      (submitBlock tm block).file_queue = tm.file_queue ++ [block]) ∧
    (runEvents ThreadManager.create events).console_handler.printed = submittedBlocks events ∧
    ((runEvents ThreadManager.create events).file_handler1.handled ++
      (runEvents ThreadManager.create events).file_handler2.handled).Perm
      (submittedBlocks events) ∧
    (allCreated events = true →
      (runEvents ThreadManager.create events).file_handler1.failed = [] ∧
      (runEvents ThreadManager.create events).file_handler2.failed = [] ∧
      ((runEvents ThreadManager.create events).file_handler1.written.map Prod.snd ++
        (runEvents ThreadManager.create events).file_handler2.written.map Prod.snd).Perm
        (submittedBlocks events)) := by
  have h := Accounted_runEvents events ThreadManager.create []
    ⟨rfl, fun b => by simp [ThreadManager.create, FileOutputHandler.handled]⟩ (by simpa using hne)
  obtain ⟨h1, h2⟩ := h
  obtain ⟨i1, i2, i3⟩ := hi
  rw [hc, i1] at h1
  have hperm : ((runEvents ThreadManager.create events).file_handler1.handled ++
      (runEvents ThreadManager.create events).file_handler2.handled).Perm
      (submittedBlocks events) := by
    rw [List.perm_iff_count]
    intro b
    have := h2 b
    rw [hf, i2, i3] at this
    simpa [List.count_append] using this
  refine ⟨fun _ _ => ⟨rfl, rfl⟩, by simpa using h1, hperm, ?_⟩
  intro ha
  obtain ⟨f1, f2⟩ := failed_runEvents events ThreadManager.create ha rfl rfl
  refine ⟨f1, f2, ?_⟩
  simpa [FileOutputHandler.handled, f1, f2] using hperm

/-- Two blocks, the file threads taking one each, steps of the three threads interleaved. -/
theorem dispatch_drained_witness :
    (runEvents ThreadManager.create
        [Event.submit ⟨[['a']], ['0'], 0⟩, Event.file_take false, Event.console_take,
          Event.submit ⟨[['b']], ['0'], 1⟩, Event.file_take true, Event.console_handle,
          Event.file_handle true true, Event.console_take, Event.file_handle false true,
          Event.console_handle]).console_handler.printed =
      [⟨[['a']], ['0'], 0⟩, ⟨[['b']], ['0'], 1⟩] ∧
    (runEvents ThreadManager.create
        [Event.submit ⟨[['a']], ['0'], 0⟩, Event.file_take false, Event.console_take,
          Event.submit ⟨[['b']], ['0'], 1⟩, Event.file_take true, Event.console_handle,
          Event.file_handle true true, Event.console_take, Event.file_handle false true,
          Event.console_handle]).file_handler1.written = [(1, ⟨[['b']], ['0'], 1⟩)] ∧
    (runEvents ThreadManager.create
        [Event.submit ⟨[['a']], ['0'], 0⟩, Event.file_take false, Event.console_take,
          Event.submit ⟨[['b']], ['0'], 1⟩, Event.file_take true, Event.console_handle,
          Event.file_handle true true, Event.console_take, Event.file_handle false true,
          Event.console_handle]).file_handler2.written = [(1, ⟨[['a']], ['0'], 0⟩)] ∧
    ((runEvents ThreadManager.create
        [Event.submit ⟨[['a']], ['0'], 0⟩, Event.file_take false, Event.console_take,
          Event.submit ⟨[['b']], ['0'], 1⟩, Event.file_take true, Event.console_handle,
          Event.file_handle true true, Event.console_take, Event.file_handle false true,
          Event.console_handle]).file_handler1.handled ++
      (runEvents ThreadManager.create
        [Event.submit ⟨[['a']], ['0'], 0⟩, Event.file_take false, Event.console_take,
          Event.submit ⟨[['b']], ['0'], 1⟩, Event.file_take true, Event.console_handle,
          Event.file_handle true true, Event.console_take, Event.file_handle false true,
          Event.console_handle]).file_handler2.handled).Perm
      (submittedBlocks
        [Event.submit ⟨[['a']], ['0'], 0⟩, Event.file_take false, Event.console_take,
          Event.submit ⟨[['b']], ['0'], 1⟩, Event.file_take true, Event.console_handle,
          Event.file_handle true true, Event.console_take, Event.file_handle false true,
          Event.console_handle]) ∧
    ((runEvents ThreadManager.create
        [Event.submit ⟨[['a']], ['0'], 0⟩, Event.file_take false, Event.console_take,
          Event.submit ⟨[['b']], ['0'], 1⟩, Event.file_take true, Event.console_handle,
          Event.file_handle true true, Event.console_take, Event.file_handle false true,
          Event.console_handle]).file_handler1.written.map Prod.snd ++
      (runEvents ThreadManager.create
        [Event.submit ⟨[['a']], ['0'], 0⟩, Event.file_take false, Event.console_take,
          Event.submit ⟨[['b']], ['0'], 1⟩, Event.file_take true, Event.console_handle,
          Event.file_handle true true, Event.console_take, Event.file_handle false true,
          Event.console_handle]).file_handler2.written.map Prod.snd).Perm
      (submittedBlocks
        [Event.submit ⟨[['a']], ['0'], 0⟩, Event.file_take false, Event.console_take,
          Event.submit ⟨[['b']], ['0'], 1⟩, Event.file_take true, Event.console_handle,
          Event.file_handle true true, Event.console_take, Event.file_handle false true,
          Event.console_handle]) :=
  ⟨by decide, by decide, by decide,
    (dispatch_drained
      [Event.submit ⟨[['a']], ['0'], 0⟩, Event.file_take false, Event.console_take,
        Event.submit ⟨[['b']], ['0'], 1⟩, Event.file_take true, Event.console_handle,
        Event.file_handle true true, Event.console_take, Event.file_handle false true,
        Event.console_handle] (by decide) (by decide) (by decide) (by decide)).2.2.1,
    ((dispatch_drained
      [Event.submit ⟨[['a']], ['0'], 0⟩, Event.file_take false, Event.console_take,
        Event.submit ⟨[['b']], ['0'], 1⟩, Event.file_take true, Event.console_handle,
        Event.file_handle true true, Event.console_take, Event.file_handle false true,
        Event.console_handle] (by decide) (by decide) (by decide) (by decide)).2.2.2
      (by decide)).2.2⟩

/-- C6, as stated, fails: one block is submitted, the console thread and the first file
thread each take it and handle it, the file being created; both queues are then empty and no
thread holds a block, the first file sink has written the block and the second file sink has
written nothing, and no further step of any worker changes that. -/
theorem second_file_sink_idle :
    (runEvents ThreadManager.create
        [Event.submit ⟨[['a']], ['0'], 0⟩, Event.console_take, Event.console_handle,
          Event.file_take true, Event.file_handle true true]).console_queue = [] ∧
    (runEvents ThreadManager.create
        [Event.submit ⟨[['a']], ['0'], 0⟩, Event.console_take, Event.console_handle,
          Event.file_take true, Event.file_handle true true]).file_queue = [] ∧
    (runEvents ThreadManager.create
        [Event.submit ⟨[['a']], ['0'], 0⟩, Event.console_take, Event.console_handle,
          Event.file_take true, Event.file_handle true true]).file_block2 = none ∧
    (runEvents ThreadManager.create
        [Event.submit ⟨[['a']], ['0'], 0⟩, Event.console_take, Event.console_handle,
          Event.file_take true, Event.file_handle true true]).file_handler1.written =
      [(1, ⟨[['a']], ['0'], 0⟩)] ∧
    (runEvents ThreadManager.create
        [Event.submit ⟨[['a']], ['0'], 0⟩, Event.console_take, Event.console_handle,
          Event.file_take true, Event.file_handle true true]).file_handler2.written = [] ∧
    (runEvents ThreadManager.create
        [Event.submit ⟨[['a']], ['0'], 0⟩, Event.console_take, Event.console_handle,
          Event.file_take true, Event.file_handle true true, Event.file_take false,
          Event.file_handle false true, Event.file_take false, Event.console_take,
          Event.console_handle]).file_handler2.written = [] := by
  decide

/-- Empty queues alone do not mean that the blocks were handled: after a submission and the
locked step of the console thread and of a file thread both queues are empty, nothing is
printed and no file is written. When the file cannot be created the block is handled and no
file is written for it. -/
theorem taken_not_yet_handled :
    ((runEvents ThreadManager.create
        [Event.submit ⟨[['a']], ['0'], 0⟩, Event.console_take,
          Event.file_take true]).console_queue = [] ∧
      (runEvents ThreadManager.create
        [Event.submit ⟨[['a']], ['0'], 0⟩, Event.console_take,
          Event.file_take true]).file_queue = [] ∧
      (runEvents ThreadManager.create
        [Event.submit ⟨[['a']], ['0'], 0⟩, Event.console_take,
          Event.file_take true]).console_handler.printed = [] ∧
      (runEvents ThreadManager.create
        [Event.submit ⟨[['a']], ['0'], 0⟩, Event.console_take,
          Event.file_take true]).file_handler1.written = []) ∧
    ((runEvents ThreadManager.create
        [Event.submit ⟨[['a']], ['0'], 0⟩, Event.file_take true,
          Event.file_handle true false]).file_handler1.written = [] ∧
      (runEvents ThreadManager.create
        [Event.submit ⟨[['a']], ['0'], 0⟩, Event.file_take true,
          Event.file_handle true false]).file_handler1.failed = [(1, ⟨[['a']], ['0'], 0⟩)]) := by
  decide

/-! ## Destruction without disconnect -/

/-- C11, amended: the destructor alone (what clearing the registry at process exit runs)
submits the same blocks as disconnect (`flush`, then the destructor) for every context
state except one that is inside a dynamic block with a `}` carried over in `buffer` and
commands pending. Inside a dynamic block the destructor does not call `flush`: the state is
left as it is, the carried-over bytes are not processed and no block is submitted; when
those bytes are the `}` that closes the outermost block, disconnect processes it and submits
the pending commands as one block. -/
theorem destroy_vs_disconnect (st : AsyncBulkCommandManager) :
    (¬ (st.inDynamicBlock = true ∧ trim st.buffer = rbrace ∧ st.currentCommands ≠ []) →
      (destroy st).submitted = (destroyContext st).submitted) ∧
    (st.inDynamicBlock = true → destroy st = st) ∧
    (st.inDynamicBlock = true → trim st.buffer = rbrace → st.dynamicBlockSizes.length = 1 →
      (destroyContext st).submitted = st.submitted ++
        (if st.currentCommands.isEmpty then []
          else [{ commands := st.currentCommands, context_id := st.context_id,
                  block_number := st.block_counter }])) := by
  refine ⟨?_, ?_, ?_⟩
  · intro h
    unfold destroyContext
    rw [flush_flush_submitted]
    by_cases hd : st.inDynamicBlock = true
    · have hq := flush_dynamic_quiet st hd (fun hb => by
        by_contra hc
        exact h ⟨hd, hb, hc⟩)
      rw [hq]
      simp [destroy, hd]
    · have hd2 : st.inDynamicBlock = false := by simpa using hd
      simp [destroy, hd2]
  · intro h
    simp [destroy, h]
  · intro h hb _
    unfold destroyContext
    rw [flush_flush_submitted, flush_dynamic_rbrace st h hb]

/-- Static size 2. Input `"x\ny\nz"`: outside a dynamic block with `z` carried over, the
destructor alone submits `[x, y]` and `[z]`, as disconnect does. Input `"{\na\n"`: inside a
dynamic block the destructor changes nothing. Input `"{\na\n}"`: disconnect submits `[a]`. -/
theorem destroy_vs_disconnect_witness :
    ((destroy (addData (AsyncBulkCommandManager.create 2 ['0']) "x\ny\nz".toList)).submitted =
      (destroyContext (addData (AsyncBulkCommandManager.create 2 ['0'])
        "x\ny\nz".toList)).submitted ∧
      bulks (destroy (addData (AsyncBulkCommandManager.create 2 ['0']) "x\ny\nz".toList)) =
        [[['x'], ['y']], [['z']]]) ∧
    destroy (addData (AsyncBulkCommandManager.create 2 ['0']) "\x7b\na\n".toList) =
      addData (AsyncBulkCommandManager.create 2 ['0']) "\x7b\na\n".toList ∧
    (destroyContext (addData (AsyncBulkCommandManager.create 2 ['0'])
        "\x7b\na\n\x7d".toList)).submitted =
      (addData (AsyncBulkCommandManager.create 2 ['0']) "\x7b\na\n\x7d".toList).submitted ++
        (if (addData (AsyncBulkCommandManager.create 2 ['0'])
            "\x7b\na\n\x7d".toList).currentCommands.isEmpty then []
          else [{ commands := (addData (AsyncBulkCommandManager.create 2 ['0'])
                    "\x7b\na\n\x7d".toList).currentCommands
                  context_id := (addData (AsyncBulkCommandManager.create 2 ['0'])
                    "\x7b\na\n\x7d".toList).context_id
                  block_number := (addData (AsyncBulkCommandManager.create 2 ['0'])
                    "\x7b\na\n\x7d".toList).block_counter }]) :=
  ⟨⟨(destroy_vs_disconnect (addData (AsyncBulkCommandManager.create 2 ['0'])
        "x\ny\nz".toList)).1 (by decide), by decide⟩,
    (destroy_vs_disconnect (addData (AsyncBulkCommandManager.create 2 ['0'])
      "\x7b\na\n".toList)).2.1 (by decide),
    (destroy_vs_disconnect (addData (AsyncBulkCommandManager.create 2 ['0'])
      "\x7b\na\n\x7d".toList)).2.2 (by decide) (by decide) (by decide)⟩

/-- C11, as stated, fails: with static size 2 the input `"{\na\n}"` leaves the context inside
a dynamic block at depth 1 with `a` pending and the unterminated `}` in `buffer`. The
destructor alone submits nothing, while disconnect processes the `}` as a last token and
submits `[a]`. -/
theorem destroy_skips_buffer :
    (addData (AsyncBulkCommandManager.create 2 ['0']) "\x7b\na\n\x7d".toList).inDynamicBlock
      = true ∧
    (addData (AsyncBulkCommandManager.create 2 ['0']) "\x7b\na\n\x7d".toList).dynamicBlockSizes
      = [2] ∧
    (addData (AsyncBulkCommandManager.create 2 ['0']) "\x7b\na\n\x7d".toList).buffer
      = ['\x7d'] ∧
    bulks (destroy (addData (AsyncBulkCommandManager.create 2 ['0'])
      "\x7b\na\n\x7d".toList)) = [] ∧
    bulks (destroyContext (addData (AsyncBulkCommandManager.create 2 ['0'])
      "\x7b\na\n\x7d".toList)) = [[['a']]] := by
  decide

end Async
